import Mathlib

/-!
# ebpf-diskalert: a shallow embedding of the threshold watcher and the recovery engine

The Go sources (`notify.go`, `ebpf_loader.go`, `disk_details.go`, `recovery_loader.go`,
`recovery_handler.go`) are embedded as pure Lean functions.

* `uint32` / `uint64` values are natural numbers, with `% 2 ^ 64` written where the
  source arithmetic can wrap.
* Go strings that carry paths and kernel buffers are byte sequences (`Bytes`); the
  configured action, which is split on Unicode white space, is a sequence of runes.
* A `float64` that is finite and non-negative is a dyadic rational `num / 2 ^ k`; every
  operation is computed exactly and then rounded to a 53-bit significand, ties to even.
  The values reached by `DiskUsage` lie between `1 / 100` and `2 ^ 128`, far from the
  overflow and underflow thresholds of the binary64 format.
* Answers of the operating system (statfs, file creation, process start, the clock) are
  explicit inputs.
-/

namespace DiskAlert

/-! ## Bytes and strings -/

/-- Byte sequences: Go `[]byte` and Go `string` values. -/
abbrev Bytes := List Nat

/-- The bytes of an ASCII literal. -/
def lit (s : String) : Bytes := s.toList.map Char.toNat

/-! ## float64 arithmetic -/

/-- Finite non-negative binary64 value `num / 2 ^ k`. -/
structure F64 where
  num : Nat
  k : Nat
deriving DecidableEq, Repr

/-- Rational value of a float. -/
def F64.toRat (x : F64) : ℚ := (x.num : ℚ) / 2 ^ x.k

/-- Number of binary digits of `n`, with the first argument bounding the recursion. -/
def bitLenAux : Nat → Nat → Nat
  | 0, _ => 0
  | fuel + 1, n => if n = 0 then 0 else bitLenAux fuel (n / 2) + 1

/-- Number of binary digits of `n` (`0` for `0`). -/
def bitLen (n : Nat) : Nat := bitLenAux n n

/-- Round the exact quotient `n / d` to the nearest float with a 53-bit significand,
ties to the even significand (the IEEE 754 default rounding). -/
def roundNearestEven (n d : Nat) : F64 :=
  if n = 0 then ⟨0, 0⟩ else
    let ln := bitLen n
    let ld := bitLen d
    let N := n * 2 ^ (53 + ld)
    let D := d * 2 ^ ln
    let D1 := if N < D * 2 ^ 53 then D else 2 * D
    let q := N / D1
    let r := N % D1
    let q1 := if 2 * r > D1 ∨ (2 * r = D1 ∧ q % 2 = 1) then q + 1 else q
    ⟨q1 * (D1 / d), 53 + ld⟩

/-- Go conversion `float64(x)` of an unsigned integer. -/
def F64.ofUint64 (x : Nat) : F64 := roundNearestEven x 1

/-- Go `a / b` on float64. -/
def F64.div (a b : F64) : F64 := roundNearestEven (a.num * 2 ^ b.k) (b.num * 2 ^ a.k)

/-- Go `a * b` on float64. -/
def F64.mul (a b : F64) : F64 := roundNearestEven (a.num * b.num) (2 ^ (a.k + b.k))

/-- The constant `100.0`. -/
def F64.hundred : F64 := ⟨100, 0⟩

/-- Go `math.Round`: nearest integer, halves away from zero. The result is the integer
the returned float denotes. -/
def mathRound (x : F64) : Nat := (2 * x.num + 2 ^ x.k) / 2 ^ (x.k + 1)

/-- Go conversion `uint64(f)` of an integer-valued float `v`. A value that does not fit
is converted to an implementation-dependent result, given by `oor`. -/
def toUint64 (oor : Nat → Nat) (v : Nat) : Nat := if v < 2 ^ 64 then v else oor v

/-! ## notify.go -/

/-- The fields of `syscall.Statfs_t` that `DiskUsage` reads. -/
structure Statfs_t where
  Blocks : Nat
  Bfree : Nat
  Bavail : Nat
deriving DecidableEq, Repr

/-- Record `DiskStatus` of notify.go. -/
structure DiskStatus where
  Blocks : Nat
  Bavail : Nat
  Bfree : Nat
  Bused : Nat
  Threshold : Nat
deriving DecidableEq, Repr

/-- The computation `uint64(math.Round(float64(fs.Blocks) * (float64(p) / 100.0)))`. -/
def thresholdBlocks (oor : Nat → Nat) (blocks p : Nat) : Nat :=
  let max_threshold := F64.div (F64.ofUint64 p) F64.hundred
  toUint64 oor (mathRound (F64.mul (F64.ofUint64 blocks) max_threshold))

/-- Function `DiskUsage`; `statfs` is the answer of `syscall.Statfs` for the mount point,
`none` when it returns an error. -/
def DiskUsage (oor : Nat → Nat) (statfs : Option Statfs_t) (DiskUsageThreshold : Nat) :
    DiskStatus :=
  match statfs with
  | none => ⟨0, 0, 0, 0, 0⟩
  | some fs =>
    { Blocks := fs.Blocks
      Bavail := fs.Bavail
      Bfree := fs.Bfree
      Bused := (fs.Blocks + 2 ^ 64 - fs.Bfree) % 2 ^ 64
      Threshold := thresholdBlocks oor fs.Blocks DiskUsageThreshold }

/-- The threshold the specification describes: `T * P / 100` rounded to the nearest
integer, halves away from zero. -/
def specThreshold (T P : Nat) : Nat := (T * P + 50) / 100

/-- Go `unicode.IsSpace`. -/
def isSpace (r : Char) : Bool :=
  let c := r.toNat
  if c ≤ 0xFF then
    decide (c = 0x09 ∨ c = 0x0A ∨ c = 0x0B ∨ c = 0x0C ∨ c = 0x0D ∨ c = 0x20 ∨
      c = 0x85 ∨ c = 0xA0)
  else
    decide (c = 0x1680 ∨ (0x2000 ≤ c ∧ c ≤ 0x200A) ∨ c = 0x2028 ∨ c = 0x2029 ∨
      c = 0x202F ∨ c = 0x205F ∨ c = 0x3000)

/-- Scan of `strings.Fields`; `cur` is the field being read, last rune first. -/
def fieldsAux : List Char → List Char → List (List Char)
  | [], cur => if cur = [] then [] else [cur.reverse]
  | c :: cs, cur =>
    if isSpace c then
      if cur = [] then fieldsAux cs [] else cur.reverse :: fieldsAux cs []
    else fieldsAux cs (c :: cur)

/-- Go `strings.Fields`: the maximal runs of runes that are not white space. -/
def fields (s : List Char) : List (List Char) := fieldsAux s []

/-- What a call of `runInBackground` does. -/
inductive RunResult
  /-- Run-time panic: `parts[0]` indexes an empty slice. -/
  | panicked
  /-- An error is returned (`os.Create` or `cmd.Start` failed); no process runs. -/
  | failed
  /-- The child process was started. -/
  | started (exe : List Char) (args : List (List Char))
deriving DecidableEq, Repr

/-- Function `runInBackground`; `createOk` and `startOk` tell whether `os.Create(logFile)`
and `cmd.Start()` succeed. -/
def runInBackground (action : List Char) (createOk startOk : Bool) : RunResult :=
  match fields action with
  | [] => RunResult.panicked
  | exe :: args =>
    if !createOk then RunResult.failed
    else if !startOk then RunResult.failed
    else RunResult.started exe args

/-- Record `ConfigData` of disk_details.go. -/
structure ConfigData where
  DeviceName : Bytes
  DiskUsageThreshold : Nat
  Action : List Char
  RepeatAction : Nat
  RecoveryEnabled : Bool
  RecoveryMinSize : Nat
  RecoveryDir : Bytes
  RecoveryMaxFiles : Nat
deriving DecidableEq, Repr

/-- Record `Devinfo` of disk_details.go. -/
structure Devinfo where
  Devid : Nat
  MountPoint : Bytes
deriving DecidableEq, Repr

/-- Answers of the operating system during one call of `checkDiskUSage`. -/
structure WatchEnv where
  statfs : Option Statfs_t
  createOk : Bool
  startOk : Bool
deriving DecidableEq, Repr

/-- The branch one call of `checkDiskUSage` takes. -/
inductive Outcome
  /-- Threshold breached, the action was started, the counter incremented. -/
  | spawned
  /-- Threshold breached, `runInBackground` returned an error, early return. -/
  | spawnFailed
  /-- Threshold breached, `runInBackground` panicked. -/
  | panicked
  /-- Threshold breached, the repeat limit is reached, nothing is started. -/
  | limitReached
  /-- Threshold not breached, the counter is reset. -/
  | reset
deriving DecidableEq, Repr

/-- Function `checkDiskUSage`; `counter` is the global `disknofity_counter` before the
call, the first component of the result is its value after the call. -/
def checkDiskUSage (oor : Nat → Nat) (cf : ConfigData) (env : WatchEnv) (counter : Nat) :
    Nat × Outcome :=
  let disk := DiskUsage oor env.statfs cf.DiskUsageThreshold
  if disk.Bused > disk.Threshold then
    if cf.RepeatAction > counter then
      match runInBackground cf.Action env.createOk env.startOk with
      | RunResult.panicked => (counter, Outcome.panicked)
      | RunResult.failed => (counter, Outcome.spawnFailed)
      | RunResult.started _ _ => ((counter + 1) % 2 ^ 64, Outcome.spawned)
    else (counter, Outcome.limitReached)
  else (0, Outcome.reset)

/-- Whether the sample of `env` is above the threshold of `cf`. -/
def aboveThreshold (oor : Nat → Nat) (cf : ConfigData) (env : WatchEnv) : Bool :=
  decide ((DiskUsage oor env.statfs cf.DiskUsageThreshold).Bused >
    (DiskUsage oor env.statfs cf.DiskUsageThreshold).Threshold)

/-- Successive calls of `checkDiskUSage`, one per delivered block-I/O event, as made by
the loop of `ebpf_loader`. The result is the counter and the number of processes started;
a panic ends the run. -/
def watchRun (oor : Nat → Nat) (cf : ConfigData) : List WatchEnv → Nat → Nat → Nat × Nat
  | [], counter, spawns => (counter, spawns)
  | env :: rest, counter, spawns =>
    match checkDiskUSage oor cf env counter with
    | (c, Outcome.spawned) => watchRun oor cf rest c (spawns + 1)
    | (_, Outcome.panicked) => (counter, spawns)
    | (c, _) => watchRun oor cf rest c spawns

/-! ## disk_details.go -/

/-- The statement `var dev uint64 = (major << 20) | minor` of `handle_io`. -/
def devid (major minor : Nat) : Nat := ((major <<< 20) % 2 ^ 64) ||| minor

/-- Go `strings.HasPrefix`. -/
def hasPrefix (s p : Bytes) : Bool := p.isPrefixOf s

/-- Go `strings.TrimPrefix`. -/
def trimPrefix (s p : Bytes) : Bytes := if hasPrefix s p then s.drop p.length else s

/-- What `handle_io` learns from the system: the mount point `findMountPoint` returns for
a device name, the answer of `isSymlink` (`some (some target)` for a symbolic link,
`some none` for any other path), and the numbers `getDeviceNumbers` finds in the
block-device table. An outer `none` is a failure, on which the program exits. -/
structure HandleIoEnv where
  findMountPoint : Bytes → Option Bytes
  isSymlink : Bytes → Option (Option Bytes)
  getDeviceNumbers : Bytes → Option (Nat × Nat)

/-- The device name `handle_io` passes to `getDeviceNumbers`; `link` is the target when
the configured path is a symbolic link. -/
def resolvedDeviceName (link : Option Bytes) (deviceName : Bytes) : Bytes :=
  match link with
  | some target =>
    if hasPrefix target (lit "../") then lit "/dev/" ++ trimPrefix target (lit "../")
    else target
  | none => deviceName

/-- Function `handle_io`, from the configuration that was read; `none` is a fatal exit. -/
def handle_io (env : HandleIoEnv) (cf : ConfigData) : Option (ConfigData × Devinfo) :=
  match env.findMountPoint cf.DeviceName with
  | none => none
  | some mountPoint =>
    match env.isSymlink cf.DeviceName with
    | none => none
    | some link =>
      let name := resolvedDeviceName link cf.DeviceName
      match env.getDeviceNumbers name with
      | none => none
      | some (major, minor) =>
        some ({ cf with DeviceName := name },
          { Devid := devid major minor, MountPoint := mountPoint })

/-! ## recovery_loader.go -/

/-- Record `RecoveryEvent`; `Filename` is a `[256]byte`, `Comm` a `[16]byte`. -/
structure RecoveryEvent where
  Pid : Nat
  PidWithFd : Nat
  FdNumber : Nat
  Inode : Nat
  Dev : Nat
  FileSize : Nat
  Filename : Bytes
  Comm : Bytes
deriving DecidableEq, Repr

/-- A record that fits its Go type. -/
def RecoveryEvent.WellFormed (ev : RecoveryEvent) : Prop :=
  ev.Pid < 2 ^ 32 ∧ ev.PidWithFd < 2 ^ 32 ∧ ev.FdNumber < 2 ^ 32 ∧ ev.Inode < 2 ^ 64 ∧
  ev.Dev < 2 ^ 32 ∧ ev.FileSize < 2 ^ 64 ∧
  ev.Filename.length = 256 ∧ ev.Comm.length = 16 ∧
  (∀ b ∈ ev.Filename, b < 256) ∧ (∀ b ∈ ev.Comm, b < 256)

/-- Little-endian bytes of `v`, `w` of them. -/
def leBytes : Nat → Nat → Bytes
  | 0, _ => []
  | w + 1, v => (v % 256) :: leBytes w (v / 256)

/-- The unsigned integer with the given little-endian bytes. -/
def leValue : Bytes → Nat
  | [] => 0
  | b :: bs => b + 256 * leValue bs

/-- Go `binary.Read(bytes.NewBuffer(raw), binary.LittleEndian, &event)` for a
`RecoveryEvent`: the fields are read one after the other, without padding, from the first
`4 + 4 + 4 + 8 + 4 + 8 + 256 + 16 = 304` bytes; a shorter buffer is an error. -/
def decodeRecoveryEvent (raw : Bytes) : Option RecoveryEvent :=
  if raw.length < 304 then none
  else some
    { Pid := leValue ((raw.drop 0).take 4)
      PidWithFd := leValue ((raw.drop 4).take 4)
      FdNumber := leValue ((raw.drop 8).take 4)
      Inode := leValue ((raw.drop 12).take 8)
      Dev := leValue ((raw.drop 20).take 4)
      FileSize := leValue ((raw.drop 24).take 8)
      Filename := (raw.drop 32).take 256
      Comm := (raw.drop 288).take 16 }

/-- Zero bytes appended until the length is a multiple of `a`. -/
def alignTo (img : Bytes) (a : Nat) : Bytes :=
  img ++ List.replicate ((a - img.length % a) % a) 0

/-- A field appended at the next offset that is a multiple of `size`. -/
def putField (img : Bytes) (size : Nat) (field : Bytes) : Bytes :=
  alignTo img size ++ field

/-- Modelled from the spec: the kernel probe that writes the record is not among the
sources; section 3 says the record is fixed-size, naturally aligned and little-endian on
the wire. Every scalar is placed at the next multiple of its size, byte arrays follow
without alignment. -/
def alignedImage (ev : RecoveryEvent) : Bytes :=
  let img := putField [] 4 (leBytes 4 ev.Pid)
  let img := putField img 4 (leBytes 4 ev.PidWithFd)
  let img := putField img 4 (leBytes 4 ev.FdNumber)
  let img := putField img 8 (leBytes 8 ev.Inode)
  let img := putField img 4 (leBytes 4 ev.Dev)
  let img := putField img 8 (leBytes 8 ev.FileSize)
  let img := putField img 1 ev.Filename
  putField img 1 ev.Comm

/-- Record `RecoveryConfig` (without the logger). -/
structure RecoveryConfig where
  Enabled : Bool
  MinFileSize : Nat
  RecoveryDir : Bytes
  MaxRecoveries : Nat
deriving DecidableEq, Repr

/-- Record `RecoveryStats`; the lock is not modelled, every method runs atomically. -/
structure RecoveryStats where
  FilesTracked : Nat
  FilesDeleted : Nat
  FilesRecovered : Nat
  RecoveryFailed : Nat
  TotalBytesRecovered : Nat
deriving DecidableEq, Repr

/-- Method `IncrementTracked`. -/
def RecoveryStats.IncrementTracked (rs : RecoveryStats) : RecoveryStats :=
  { rs with FilesTracked := (rs.FilesTracked + 1) % 2 ^ 64 }

/-- Method `IncrementDeleted`. -/
def RecoveryStats.IncrementDeleted (rs : RecoveryStats) : RecoveryStats :=
  { rs with FilesDeleted := (rs.FilesDeleted + 1) % 2 ^ 64 }

/-- Method `IncrementRecovered`. -/
def RecoveryStats.IncrementRecovered (rs : RecoveryStats) (bytes : Nat) : RecoveryStats :=
  { rs with
    FilesRecovered := (rs.FilesRecovered + 1) % 2 ^ 64
    TotalBytesRecovered := (rs.TotalBytesRecovered + bytes) % 2 ^ 64 }

/-- Method `IncrementFailed`. -/
def RecoveryStats.IncrementFailed (rs : RecoveryStats) : RecoveryStats :=
  { rs with RecoveryFailed := (rs.RecoveryFailed + 1) % 2 ^ 64 }

/-- The operations on the stats. -/
inductive StatsOp
  | tracked
  | deleted
  | recovered (bytes : Nat)
  | failed
deriving DecidableEq, Repr

/-- One operation applied to the stats. -/
def RecoveryStats.apply (rs : RecoveryStats) : StatsOp → RecoveryStats
  | StatsOp.tracked => rs.IncrementTracked
  | StatsOp.deleted => rs.IncrementDeleted
  | StatsOp.recovered b => rs.IncrementRecovered b
  | StatsOp.failed => rs.IncrementFailed

/-- The additions of the operation stay below `2 ^ 64`: no counter wraps. -/
def StatsOp.fits (op : StatsOp) (rs : RecoveryStats) : Prop :=
  match op with
  | StatsOp.tracked => rs.FilesTracked + 1 < 2 ^ 64
  | StatsOp.deleted => rs.FilesDeleted + 1 < 2 ^ 64
  | StatsOp.recovered b => rs.FilesRecovered + 1 < 2 ^ 64 ∧ rs.TotalBytesRecovered + b < 2 ^ 64
  | StatsOp.failed => rs.RecoveryFailed + 1 < 2 ^ 64

/-- Go `bytes.IndexByte`: index of the first `c` in `b`, `-1` when there is none. -/
def indexByte (b : Bytes) (c : Nat) : Int :=
  if c ∈ b then (b.indexOf c : Int) else -1

/-- Function `nullTerminatedString`. -/
def nullTerminatedString (b : Bytes) : Bytes :=
  let n := indexByte b 0
  let n := if n = -1 then (b.length : Int) else n
  b.take n.toNat

/-! ## recovery_handler.go -/

/-- The path with its trailing separators removed. -/
def stripTrailingSlashes (path : Bytes) : Bytes :=
  (path.reverse.dropWhile (fun b => b == 47)).reverse

/-- What follows the last separator. -/
def lastElement (path : Bytes) : Bytes :=
  (path.reverse.takeWhile (fun b => b != 47)).reverse

/-- Go `filepath.Base` on a Unix path: `.` for the empty path, otherwise the last element
once trailing separators are removed, `/` when nothing is left. -/
def filepathBase (path : Bytes) : Bytes :=
  if path = [] then lit "."
  else
    let p := lastElement (stripTrailingSlashes path)
    if p = [] then lit "/" else p

/-- The verb `%d` of `fmt.Sprintf` for an unsigned integer. -/
def decimal (n : Nat) : Bytes := (Nat.toDigits 10 n).map Char.toNat

/-- The verb `%d` of `fmt.Sprintf` for a signed integer. -/
def decimalInt (i : Int) : Bytes :=
  if i < 0 then 45 :: decimal i.natAbs else decimal i.toNat

/-- The middle component of the recovery file name. -/
def recoveryBasename (originalPath : Bytes) (inode : Nat) : Bytes :=
  let basename := filepathBase originalPath
  if basename = [] ∨ basename = lit "." then lit "unnamed_" ++ decimal inode else basename

/-- The name `fmt.Sprintf("%d_%s_inode%d", timestamp, basename, inode)` built by
`recoverFileFromFd`; `timestamp` is `time.Now().Unix()`. -/
def recoveryFilename (timestamp : Int) (originalPath : Bytes) (inode : Nat) : Bytes :=
  decimalInt timestamp ++ lit "_" ++ recoveryBasename originalPath inode ++ lit "_inode" ++
    decimal inode

/-- File-system calls made by `recoverFileFromFd`, each with its success. -/
inductive FsOp
  | lstat (path : Bytes) (ok : Bool)
  | openRead (path : Bytes) (ok : Bool)
  | create (path : Bytes) (ok : Bool)
  | copy (dst src : Bytes) (ok : Bool)
  | remove (path : Bytes) (ok : Bool)
  | sync (path : Bytes) (ok : Bool)
  | writeFile (path content : Bytes) (ok : Bool)
  | close (path : Bytes)
deriving DecidableEq, Repr

/-- The errors `recoverFileFromFd` returns. -/
inductive RecoverError
  | fdGone
  | openFailed
  | createFailed
  | copyFailed
  | syncFailed
deriving DecidableEq, Repr

/-- Answers of the operating system during one call of `recoverFileFromFd`: the clock
(`time.Now().Unix()` and the RFC 3339 text of `time.Now()`), the success of each call and
the byte count `io.Copy` reports. -/
structure RecoverEnv where
  now : Int
  nowRFC3339 : Bytes
  lstatOk : Bool
  openOk : Bool
  createOk : Bool
  copyOk : Bool
  bytesWritten : Int
  removeOk : Bool
  syncOk : Bool
  metaOk : Bool
deriving DecidableEq, Repr

/-- The text written by `writeRecoveryMetadata`. -/
def metaContent (recoveryPath originalPath recoveredAt : Bytes) (pid fd inode : Nat)
    (size : Int) : Bytes :=
  lit "Recovery Metadata\n================\nOriginal Path: " ++ originalPath ++
  lit "\nRecovered At: " ++ recoveredAt ++
  lit "\nInode: " ++ decimal inode ++
  lit "\nProcess ID: " ++ decimal pid ++
  lit "\nFile Descriptor: " ++ decimal fd ++
  lit "\nFile Size: " ++ decimalInt size ++ lit " bytes" ++
  lit "\nRecovery Path: " ++ recoveryPath ++ lit "\n"

/-- Function `recoverFileFromFd`. The result is the returned error (`none` for `nil`) and
the file-system calls in the order they are made, the deferred `Close` calls last.
`join` stands for `filepath.Join`. -/
def recoverFileFromFd (join : Bytes → Bytes → Bytes) (pid fd inode : Nat)
    (originalPath : Bytes) (_size : Nat) (config : RecoveryConfig) (env : RecoverEnv) :
    Option RecoverError × List FsOp :=
  let procFdPath := lit "/proc/" ++ decimal pid ++ lit "/fd/" ++ decimal fd
  if !env.lstatOk then (some RecoverError.fdGone, [FsOp.lstat procFdPath false])
  else
    let recoveryPath := join config.RecoveryDir (recoveryFilename env.now originalPath inode)
    if !env.openOk then
      (some RecoverError.openFailed,
        [FsOp.lstat procFdPath true, FsOp.openRead procFdPath false])
    else if !env.createOk then
      (some RecoverError.createFailed,
        [FsOp.lstat procFdPath true, FsOp.openRead procFdPath true,
         FsOp.create recoveryPath false, FsOp.close procFdPath])
    else if !env.copyOk then
      (some RecoverError.copyFailed,
        [FsOp.lstat procFdPath true, FsOp.openRead procFdPath true,
         FsOp.create recoveryPath true, FsOp.copy recoveryPath procFdPath false,
         FsOp.remove recoveryPath env.removeOk,
         FsOp.close recoveryPath, FsOp.close procFdPath])
    else if !env.syncOk then
      (some RecoverError.syncFailed,
        [FsOp.lstat procFdPath true, FsOp.openRead procFdPath true,
         FsOp.create recoveryPath true, FsOp.copy recoveryPath procFdPath true,
         FsOp.sync recoveryPath false,
         FsOp.close recoveryPath, FsOp.close procFdPath])
    else
      (none,
        [FsOp.lstat procFdPath true, FsOp.openRead procFdPath true,
         FsOp.create recoveryPath true, FsOp.copy recoveryPath procFdPath true,
         FsOp.sync recoveryPath true,
         FsOp.writeFile (recoveryPath ++ lit ".meta")
           (metaContent recoveryPath originalPath env.nowRFC3339 pid fd inode
             env.bytesWritten) env.metaOk,
         FsOp.close recoveryPath, FsOp.close procFdPath])

/-- The files present after the calls `ops`, starting from the files `files`: a successful
`os.Create` or `ioutil.WriteFile` adds its path, a successful `os.Remove` deletes it. -/
def filesAfter : List FsOp → List Bytes → List Bytes
  | [], files => files
  | FsOp.create p true :: ops, files => filesAfter ops (p :: files)
  | FsOp.writeFile p _ true :: ops, files => filesAfter ops (p :: files)
  | FsOp.remove p true :: ops, files => filesAfter ops (files.filter (fun q => q != p))
  | _ :: ops, files => filesAfter ops files

/-- The arguments of one call of `recoverFileFromFd`. -/
structure RecoverCall where
  pid : Nat
  fd : Nat
  inode : Nat
  originalPath : Bytes
  size : Nat
deriving DecidableEq, Repr

/-- The state `handleRecoveryEvents` works on: the global stats, and a log of the calls of
`recoverFileFromFd` and of the file-system calls they made. -/
structure HandlerState where
  stats : RecoveryStats
  calls : List RecoverCall
  ops : List FsOp
deriving DecidableEq, Repr

/-- The body of the loop of `handleRecoveryEvents` for one decoded event; `env` holds the
answers of the system in case `recoverFileFromFd` is called. -/
def handleRecoveryEvent (join : Bytes → Bytes → Bytes) (config : RecoveryConfig)
    (env : RecoverEnv) (event : RecoveryEvent) (st : HandlerState) : HandlerState :=
  let stats := st.stats.IncrementDeleted
  let filename := nullTerminatedString event.Filename
  if event.PidWithFd > 0 ∧ event.FdNumber > 0 then
    let r := recoverFileFromFd join event.PidWithFd event.FdNumber event.Inode filename
      event.FileSize config env
    { stats :=
        match r.1 with
        | some _ => stats.IncrementFailed
        | none => stats.IncrementRecovered event.FileSize
      calls := st.calls ++
        [{ pid := event.PidWithFd, fd := event.FdNumber, inode := event.Inode,
           originalPath := filename, size := event.FileSize }]
      ops := st.ops ++ r.2 }
  else
    { stats := stats.IncrementFailed, calls := st.calls, ops := st.ops }

/-- What `reader.Read()` returns. -/
inductive PerfRead
  /-- An error for which `perf.IsClosed` holds. -/
  | closed
  /-- Any other error. -/
  | readError
  /-- A record with its `LostSamples` and `RawSample`. -/
  | record (LostSamples : Nat) (RawSample : Bytes)
deriving DecidableEq, Repr

/-- Function `handleRecoveryEvents` over the successive results of `reader.Read()`, each
with the answers of the system for the recovery it may trigger. -/
def handleRecoveryEvents (join : Bytes → Bytes → Bytes) (config : RecoveryConfig) :
    List (PerfRead × RecoverEnv) → HandlerState → HandlerState
  | [], st => st
  | (PerfRead.closed, _) :: _, st => st
  | (PerfRead.readError, _) :: rest, st => handleRecoveryEvents join config rest st
  | (PerfRead.record lost raw, env) :: rest, st =>
    if lost ≠ 0 then handleRecoveryEvents join config rest st
    else
      match decodeRecoveryEvent raw with
      | none => handleRecoveryEvents join config rest st
      | some event =>
        handleRecoveryEvents join config rest (handleRecoveryEvent join config env event st)

/-- A non-empty run of ASCII decimal digits. -/
def IsDigits (s : Bytes) : Prop := s ≠ [] ∧ ∀ b ∈ s, 48 ≤ b ∧ b ≤ 57

/-- The pattern `<digits>_<nonempty>_inode<digits>` of section 8. -/
def MatchesRecoveryPattern (name : Bytes) : Prop :=
  ∃ d1 mid d2 : Bytes, IsDigits d1 ∧ mid ≠ [] ∧ IsDigits d2 ∧
    name = d1 ++ lit "_" ++ mid ++ lit "_inode" ++ d2

/-! ## recovery_handler.go: the /proc scanner and the retention sweep -/

/-- Record `FdInfo`. -/
structure FdInfo where
  Pid : Nat
  Fd : Nat
  FilePath : Bytes
  Inode : Nat
  Dev : Nat
deriving DecidableEq, Repr

/-- Go `strconv.ParseUint(s, 10, bitSize)`: a non-empty run of decimal digits whose value
fits in `bitSize` bits; `none` is an error. -/
def parseUint (s : Bytes) (bitSize : Nat) : Option Nat :=
  if s = [] then none
  else if s.all (fun b => decide (48 ≤ b ∧ b ≤ 57)) then
    let v := s.foldl (fun acc b => 10 * acc + (b - 48)) 0
    if v < 2 ^ bitSize then some v else none
  else none

/-- An entry of a directory `/proc/<pid>/fd`: its name and what `os.Readlink` returns for
it (`none` is an error). -/
structure FdEntry where
  Name : Bytes
  Readlink : Option Bytes
deriving DecidableEq, Repr

/-- A path returned by `filepath.Glob("/proc/[0-9]*")`: its last element and what
`ioutil.ReadDir` returns for its `fd` directory (`none` is an error). -/
structure ProcDir where
  Name : Bytes
  ReadDir : Option (List FdEntry)
deriving DecidableEq, Repr

/-- The fields of `syscall.Stat_t` that the scanner reads. -/
structure Stat_t where
  Ino : Nat
  Dev : Nat
deriving DecidableEq, Repr

/-- The test `linkTarget == targetPath || strings.HasPrefix(linkTarget, targetPath+" (deleted)")`
of `findOpenFds`. -/
def matchesTarget (linkTarget targetPath : Bytes) : Bool :=
  linkTarget == targetPath || hasPrefix linkTarget (targetPath ++ lit " (deleted)")

/-- The inner loop of `findOpenFds` over the descriptors of one process. `ownFstat n` is
what `syscall.Fstat(int(fdNum), &stat)` returns for `fdNum = n`: the call is made on the
descriptor table of the scanning process itself. -/
def scanFds (ownFstat : Nat → Option Stat_t) (targetPath : Bytes) (pid : Nat) :
    List FdEntry → List FdInfo
  | [] => []
  | fdEntry :: rest =>
    match fdEntry.Readlink with
    | none => scanFds ownFstat targetPath pid rest
    | some linkTarget =>
      if matchesTarget linkTarget targetPath then
        match parseUint fdEntry.Name 32 with
        | none => scanFds ownFstat targetPath pid rest
        | some fdNum =>
          match ownFstat fdNum with
          | some stat =>
            { Pid := pid, Fd := fdNum, FilePath := linkTarget, Inode := stat.Ino,
              Dev := stat.Dev % 2 ^ 32 } :: scanFds ownFstat targetPath pid rest
          | none => scanFds ownFstat targetPath pid rest
      else scanFds ownFstat targetPath pid rest

/-- Function `findOpenFds` over the paths the glob returned. -/
def findOpenFds (ownFstat : Nat → Option Stat_t) (targetPath : Bytes) :
    List ProcDir → List FdInfo
  | [] => []
  | procDir :: rest =>
    match parseUint procDir.Name 32 with
    | none => findOpenFds ownFstat targetPath rest
    | some pid =>
      match procDir.ReadDir with
      | none => findOpenFds ownFstat targetPath rest
      | some fds =>
        scanFds ownFstat targetPath pid fds ++ findOpenFds ownFstat targetPath rest

/-- The match the specification describes: the link target is the path, or the path
followed by ` (deleted)`. -/
def specMatches (linkTarget targetPath : Bytes) : Prop :=
  linkTarget = targetPath ∨ linkTarget = targetPath ++ lit " (deleted)"

/-- The list the specification describes for `find_by_path`: one pair `(pid, fd)` for every
descriptor of a readable process whose link target matches. -/
def specOpenFds (targetPath : Bytes) (procDirs : List ProcDir) : List (Nat × Nat) :=
  procDirs.flatMap (fun procDir =>
    match parseUint procDir.Name 32, procDir.ReadDir with
    | some pid, some fds =>
      fds.filterMap (fun fdEntry =>
        match fdEntry.Readlink, parseUint fdEntry.Name 32 with
        | some linkTarget, some fdNum =>
          if linkTarget = targetPath ∨ linkTarget = targetPath ++ lit " (deleted)" then
            some (pid, fdNum)
          else none
        | _, _ => none)
    | _, _ => [])

/-- An entry of the recovery directory as `ioutil.ReadDir` reports it; `ModTime` is in
nanoseconds since the Unix epoch. -/
structure DirEntry where
  Name : Bytes
  IsDir : Bool
  ModTime : Int
deriving DecidableEq, Repr

/-- Go `t.Sub(u)` on instants given in nanoseconds: the difference as a `time.Duration`
(a signed 64-bit count of nanoseconds), the largest or smallest duration when the
difference does not fit. -/
def timeSub (t u : Int) : Int :=
  if t - u > 2 ^ 63 - 1 then 2 ^ 63 - 1
  else if t - u < -(2 ^ 63) then -(2 ^ 63)
  else t - u

/-- The duration `time.Hour` in nanoseconds. -/
def hour : Int := 3600 * 1000000000

/-- What one call of `cleanupOldRecoveries` does: whether it returns an error, the paths
given to `os.Remove` in order, the value of `cleaned`, and the entries of the listing that
are still there afterwards. -/
structure CleanupResult where
  failed : Bool
  removeCalls : List Bytes
  cleaned : Nat
  remaining : List DirEntry
deriving DecidableEq, Repr

/-- The loop of `cleanupOldRecoveries`; `dir` is `config.RecoveryDir`, `removeOk path`
tells whether `os.Remove(path)` succeeds and `join` stands for `filepath.Join`. -/
def cleanupLoop (join : Bytes → Bytes → Bytes) (dir : Bytes) (now : Int)
    (removeOk : Bytes → Bool) (maxAge : Int) : List DirEntry → CleanupResult
  | [] => { failed := false, removeCalls := [], cleaned := 0, remaining := [] }
  | entry :: rest =>
    let r := cleanupLoop join dir now removeOk maxAge rest
    if entry.IsDir then { r with remaining := entry :: r.remaining }
    else if timeSub now entry.ModTime > maxAge then
      if removeOk (join dir entry.Name) then
        { r with removeCalls := join dir entry.Name :: r.removeCalls, cleaned := r.cleaned + 1 }
      else
        { r with removeCalls := join dir entry.Name :: r.removeCalls,
                 remaining := entry :: r.remaining }
    else { r with remaining := entry :: r.remaining }

/-- Function `cleanupOldRecoveries`; `listing` is what `ioutil.ReadDir` returns for the
recovery directory (`none` is an error) and `now` is `time.Now()`. -/
def cleanupOldRecoveries (join : Bytes → Bytes → Bytes) (config : RecoveryConfig)
    (listing : Option (List DirEntry)) (now : Int) (removeOk : Bytes → Bool) (maxAge : Int) :
    CleanupResult :=
  match listing with
  | none => { failed := true, removeCalls := [], cleaned := 0, remaining := [] }
  | some entries => cleanupLoop join config.RecoveryDir now removeOk maxAge entries

/-- One tick of `RecoveryManagerDaemon`: a sweep with a maximum age of `7*24*time.Hour`. -/
def RecoveryManagerDaemon (join : Bytes → Bytes → Bytes) (config : RecoveryConfig)
    (listing : Option (List DirEntry)) (now : Int) (removeOk : Bytes → Bool) : CleanupResult :=
  cleanupOldRecoveries join config listing now removeOk (7 * 24 * hour)

/-! # Lemmas and theorems -/

/-! ## float64 rounding -/

theorem bitLenAux_lt (fuel : Nat) : ∀ n, n ≤ fuel → n < 2 ^ bitLenAux fuel n := by
  induction fuel with
  | zero => intro n h; simp [bitLenAux]; omega
  | succ f ih =>
    intro n h
    unfold bitLenAux
    split_ifs with h0
    · simp [h0]
    · have := ih (n / 2) (by omega)
      rw [pow_succ]
      omega

theorem bitLenAux_le (fuel : Nat) : ∀ n, n ≤ fuel → n ≠ 0 → 2 ^ bitLenAux fuel n ≤ 2 * n := by
  induction fuel with
  | zero => intro n h h0; omega
  | succ f ih =>
    intro n h h0
    unfold bitLenAux
    rw [if_neg h0, pow_succ]
    by_cases h1 : n / 2 = 0
    · have : n = 1 := by omega
      subst this
      cases f <;> simp [bitLenAux]
    · have := ih (n / 2) (by omega) h1
      omega

theorem lt_two_pow_bitLen (n : Nat) : n < 2 ^ bitLen n := bitLenAux_lt n n le_rfl

theorem two_pow_bitLen_le (n : Nat) (h : n ≠ 0) : 2 ^ bitLen n ≤ 2 * n :=
  bitLenAux_le n n le_rfl h

theorem half_ulp (N D1 p r : Nat) (hdm : p + r = N) (hr : r < D1)
    (hlow : D1 * 2 ^ 52 ≤ N) :
    (D1 ≤ 2 * r → |((p + D1 : Nat) : ℤ) - N| * 2 ^ 53 ≤ N) ∧
    (2 * r ≤ D1 → |((p : Nat) : ℤ) - N| * 2 ^ 53 ≤ N) := by
  constructor
  · intro h
    rcases abs_cases (((p + D1 : Nat) : ℤ) - N) with ⟨h1, _⟩ | ⟨h1, _⟩ <;>
      rw [h1] <;> push_cast <;> omega
  · intro h
    rcases abs_cases (((p : Nat) : ℤ) - N) with ⟨h1, _⟩ | ⟨h1, _⟩ <;>
      rw [h1] <;> push_cast <;> omega

theorem round_step (N D1 : Nat) (hpos : 0 < D1) (hlow : D1 * 2 ^ 52 ≤ N) :
    |(((if 2 * (N % D1) > D1 ∨ (2 * (N % D1) = D1 ∧ (N / D1) % 2 = 1) then N / D1 + 1
        else N / D1) * D1 : Nat) : ℤ) - N| * 2 ^ 53 ≤ N := by
  have hdm := Nat.div_add_mod N D1
  have hmul : (N / D1 + 1) * D1 = D1 * (N / D1) + D1 := by ring
  have hmul2 : (N / D1) * D1 = D1 * (N / D1) := by ring
  have hr := Nat.mod_lt N hpos
  have key := half_ulp N D1 (D1 * (N / D1)) (N % D1) hdm hr hlow
  split_ifs with hc
  · rw [hmul]
    apply key.1
    rcases hc with hc | hc <;> omega
  · rw [hmul2]
    apply key.2
    by_contra hlt
    exact hc (Or.inl (by omega))

/-- The rounded value is within half a unit in the last place: relative error `2 ^ -53`. -/
theorem roundNearestEven_err (n d : Nat) (hn : 0 < n) (hd : 0 < d) :
    |((roundNearestEven n d).num * d : ℤ) - n * 2 ^ (roundNearestEven n d).k| * 2 ^ 53
      ≤ n * 2 ^ (roundNearestEven n d).k := by
  have hL2 := two_pow_bitLen_le n (by omega)
  have hM1 := lt_two_pow_bitLen d
  have hn0 : n ≠ 0 := by omega
  simp only [roundNearestEven, if_neg hn0]
  set N := n * 2 ^ (53 + bitLen d) with hN
  set D := d * 2 ^ bitLen n with hD
  set D1 := if N < D * 2 ^ 53 then D else 2 * D with hD1
  have hDpos : 0 < D := by positivity
  have hD1pos : 0 < D1 := by rw [hD1]; split_ifs <;> omega
  have hDN : D * 2 ^ 52 ≤ N := by
    have h1 : d * 2 ^ bitLen n ≤ 2 ^ bitLen d * (2 * n) :=
      Nat.mul_le_mul hM1.le hL2
    have h2 : N = 2 ^ bitLen d * (2 * n) * 2 ^ 52 := by
      rw [hN, pow_add]; ring
    rw [h2]
    exact Nat.mul_le_mul_right _ h1
  have hlow : D1 * 2 ^ 52 ≤ N := by
    rw [hD1]; split_ifs with hc
    · exact hDN
    · omega
  have hdiv : D1 / d * d = D1 := by
    apply Nat.div_mul_cancel
    rw [hD1]; split_ifs
    · exact Dvd.intro _ rfl
    · exact Dvd.intro (2 * 2 ^ bitLen n) (by rw [hD]; ring)
  have key := round_step N D1 hD1pos hlow
  have hcast : ((n : ℤ) * 2 ^ (53 + bitLen d)) = ((N : Nat) : ℤ) := by
    rw [hN]; push_cast; ring
  rw [hcast]
  convert key using 3
  rw [← Nat.cast_mul, mul_assoc, hdiv]

/-- A quotient that is an integer below `2 ^ 53` is not changed by the rounding. -/
theorem roundNearestEven_exact (m d : Nat) (hm : m < 2 ^ 53) (hd : 0 < d) :
    (roundNearestEven (m * d) d).num = m * 2 ^ (roundNearestEven (m * d) d).k := by
  rcases Nat.eq_zero_or_pos m with h0 | hpos
  · subst h0; simp [roundNearestEven]
  have hnpos : 0 < m * d := Nat.mul_pos hpos hd
  have hL2 := two_pow_bitLen_le (m * d) (by omega)
  have hM1 := lt_two_pow_bitLen d
  have hn0 : m * d ≠ 0 := by omega
  simp only [roundNearestEven, if_neg hn0]
  set N := m * d * 2 ^ (53 + bitLen d) with hN
  set D := d * 2 ^ bitLen (m * d) with hD
  -- the divisor is `d` times a power of two that divides `2 ^ (53 + bitLen d)`
  have key : ∀ L, d * 2 ^ L * 2 ^ 52 ≤ N →
      N % (d * 2 ^ L) = 0 ∧ N / (d * 2 ^ L) * (d * 2 ^ L / d) = m * 2 ^ (53 + bitLen d) := by
    intro L hlow
    have h1 : 2 ^ L * 2 ^ 52 ≤ m * 2 ^ (53 + bitLen d) := by
      have e1 : d * 2 ^ L * 2 ^ 52 = d * (2 ^ L * 2 ^ 52) := by ring
      have e2 : N = d * (m * 2 ^ (53 + bitLen d)) := by rw [hN]; ring
      rw [e1, e2] at hlow
      exact Nat.le_of_mul_le_mul_left hlow hd
    have h2 : m * 2 ^ (53 + bitLen d) < 2 ^ 53 * 2 ^ (53 + bitLen d) :=
      Nat.mul_lt_mul_of_pos_right hm (by positivity)
    have h3 : 2 ^ (L + 52) < 2 ^ (53 + (53 + bitLen d)) := by
      rw [pow_add, pow_add 2 53]; omega
    have h4 : L ≤ 53 + bitLen d := by
      have := (Nat.pow_lt_pow_iff_right (by norm_num : 1 < 2)).1 h3
      omega
    obtain ⟨j, hj⟩ := Nat.exists_eq_add_of_le h4
    have hNe : N = d * 2 ^ L * (m * 2 ^ j) := by
      rw [hN, hj, pow_add]; ring
    have hpos2 : 0 < d * 2 ^ L := by positivity
    constructor
    · rw [hNe]; exact Nat.mul_mod_right _ _
    · rw [hNe, Nat.mul_div_cancel_left _ hpos2, Nat.mul_div_cancel_left _ hd, hj, pow_add]
      ring
  have hDN : D * 2 ^ 52 ≤ N := by
    have h1 : d * 2 ^ bitLen (m * d) ≤ 2 ^ bitLen d * (2 * (m * d)) :=
      Nat.mul_le_mul hM1.le hL2
    have h2 : N = 2 ^ bitLen d * (2 * (m * d)) * 2 ^ 52 := by
      rw [hN, pow_add]; ring
    rw [h2]
    exact Nat.mul_le_mul_right _ h1
  by_cases hc : N < D * 2 ^ 53
  · simp only [if_pos hc]
    obtain ⟨k1, k2⟩ := key (bitLen (m * d)) hDN
    rw [k1]
    have hDpos : 0 < D := by positivity
    rw [if_neg (by omega)]
    exact k2
  · simp only [if_neg hc]
    have e : 2 * D = d * 2 ^ (bitLen (m * d) + 1) := by rw [hD, pow_succ]; ring
    rw [e]
    obtain ⟨k1, k2⟩ := key (bitLen (m * d) + 1) (by rw [← e]; omega)
    rw [k1]
    have hDpos : 0 < d * 2 ^ (bitLen (m * d) + 1) := by positivity
    rw [if_neg (by omega)]
    exact k2

theorem toRat_ofUint64 (n : Nat) (hn : n < 2 ^ 53) : (F64.ofUint64 n).toRat = n := by
  have h := roundNearestEven_exact n 1 hn Nat.one_pos
  rw [mul_one] at h
  unfold F64.ofUint64 F64.toRat
  rw [h]
  push_cast
  field_simp

theorem toRat_nonneg (x : F64) : 0 ≤ x.toRat := by
  unfold F64.toRat; positivity

/-- Relative error of one rounding, over the rationals. -/
theorem toRat_roundNearestEven (n d : Nat) (hd : 0 < d) :
    |(roundNearestEven n d).toRat - (n : ℚ) / d| ≤ (n : ℚ) / d / 2 ^ 53 := by
  rcases Nat.eq_zero_or_pos n with h0 | hpos
  · subst h0; simp [roundNearestEven, F64.toRat]
  have h := roundNearestEven_err n d hpos hd
  set v := roundNearestEven n d with hv
  have hq : |(v.num : ℚ) * d - n * 2 ^ v.k| * 2 ^ 53 ≤ n * 2 ^ v.k := by exact_mod_cast h
  have hdq : (0 : ℚ) < d := by exact_mod_cast hd
  have hpk : (0 : ℚ) < 2 ^ v.k := by positivity
  have hden : (0 : ℚ) < d * 2 ^ v.k := by positivity
  have e : v.toRat - (n : ℚ) / d = ((v.num : ℚ) * d - n * 2 ^ v.k) / (d * 2 ^ v.k) := by
    unfold F64.toRat; field_simp; ring
  rw [e, abs_div, abs_of_pos hden, div_le_iff₀ hden]
  have e2 : (n : ℚ) / d / 2 ^ 53 * (d * 2 ^ v.k) = n * 2 ^ v.k / 2 ^ 53 := by
    field_simp; ring
  rw [e2, le_div_iff₀ (by positivity)]
  exact hq

theorem toRat_mul (a b : F64) :
    |(F64.mul a b).toRat - a.toRat * b.toRat| ≤ a.toRat * b.toRat / 2 ^ 53 := by
  have h := toRat_roundNearestEven (a.num * b.num) (2 ^ (a.k + b.k)) (by positivity)
  have e : ((a.num * b.num : Nat) : ℚ) / ((2 ^ (a.k + b.k) : Nat) : ℚ) = a.toRat * b.toRat := by
    unfold F64.toRat; push_cast; rw [pow_add]; field_simp
  rw [e] at h
  exact h

theorem toRat_div (a b : F64) (hb : 0 < b.num) :
    |(F64.div a b).toRat - a.toRat / b.toRat| ≤ a.toRat / b.toRat / 2 ^ 53 := by
  have h := toRat_roundNearestEven (a.num * 2 ^ b.k) (b.num * 2 ^ a.k) (by positivity)
  have hbq : (0 : ℚ) < b.num := by exact_mod_cast hb
  have e : ((a.num * 2 ^ b.k : Nat) : ℚ) / ((b.num * 2 ^ a.k : Nat) : ℚ)
      = a.toRat / b.toRat := by
    unfold F64.toRat; push_cast; field_simp; left; ring
  rw [e] at h
  exact h

theorem mathRound_eq (v : F64) (r : Nat) (h1 : (r : ℚ) - 1 / 2 ≤ v.toRat)
    (h2 : v.toRat < r + 1 / 2) : mathRound v = r := by
  unfold mathRound
  unfold F64.toRat at h1 h2
  have hpk : (0 : ℚ) < 2 ^ v.k := by positivity
  rw [le_div_iff₀ hpk] at h1
  rw [div_lt_iff₀ hpk] at h2
  apply Nat.div_eq_of_lt_le
  · have : ((r * 2 ^ (v.k + 1) : Nat) : ℚ) ≤ ((2 * v.num + 2 ^ v.k : Nat) : ℚ) := by
      push_cast; rw [pow_succ]; linarith
    exact_mod_cast this
  · have : ((2 * v.num + 2 ^ v.k : Nat) : ℚ) < (((r + 1) * 2 ^ (v.k + 1) : Nat) : ℚ) := by
      push_cast; rw [pow_succ]; linarith
    exact_mod_cast this

/-- The float product computed by `DiskUsage` is within `3 / 512` of `T * P / 100`. -/
theorem product_close (T P : Nat) (hT : T < 2 ^ 44) (hP : P ≤ 100) :
    |(F64.mul (F64.ofUint64 T) (F64.div (F64.ofUint64 P) F64.hundred)).toRat
      - (T : ℚ) * P / 100| ≤ 3 / 512 := by
  have ht : (F64.ofUint64 T).toRat = T :=
    toRat_ofUint64 T (lt_trans hT (by norm_num))
  have hp : (F64.ofUint64 P).toRat = P :=
    toRat_ofUint64 P (lt_of_le_of_lt hP (by norm_num))
  have hh : F64.hundred.toRat = 100 := by norm_num [F64.hundred, F64.toRat]
  have e1 := toRat_div (F64.ofUint64 P) F64.hundred (by decide)
  have e2 := toRat_mul (F64.ofUint64 T) (F64.div (F64.ofUint64 P) F64.hundred)
  rw [hp, hh] at e1
  rw [ht] at e2
  set c := (F64.div (F64.ofUint64 P) F64.hundred).toRat with hc
  set y := (F64.mul (F64.ofUint64 T) (F64.div (F64.ofUint64 P) F64.hundred)).toRat with hy
  have hT0 : (0 : ℚ) ≤ T := by positivity
  have hPq : (P : ℚ) ≤ 100 := by exact_mod_cast hP
  have hP0 : (0 : ℚ) ≤ P := by positivity
  -- scale the first error by T
  have e1T : |(T : ℚ) * c - T * (P / 100)| ≤ T * ((P : ℚ) / 100 / 2 ^ 53) := by
    rw [← mul_sub, abs_mul, abs_of_nonneg hT0]
    exact mul_le_mul_of_nonneg_left e1 hT0
  have hx : (T : ℚ) * (P / 100) ≤ T := by
    have : (P : ℚ) / 100 ≤ 1 := by linarith
    calc (T : ℚ) * (P / 100) ≤ T * 1 := mul_le_mul_of_nonneg_left this hT0
      _ = T := mul_one _
  have hx0 : (0 : ℚ) ≤ T * (P / 100) := by positivity
  have hlin : (T : ℚ) * ((P : ℚ) / 100 / 2 ^ 53) = T * (P / 100) / 2 ^ 53 := by ring
  have hxx : (T : ℚ) * P / 100 = T * (P / 100) := by ring
  rw [hlin] at e1T
  rw [hxx]
  generalize (T : ℚ) * (P / 100) = x at e1T hx hx0 ⊢
  generalize (T : ℚ) * c = w at e1T e2
  rw [abs_le] at e1T e2 ⊢
  obtain ⟨a1, a2⟩ := e1T
  obtain ⟨b1, b2⟩ := e2
  norm_num at a1 a2 b1 b2
  have hTq' : (T : ℚ) ≤ 17592186044416 := by exact_mod_cast hT.le
  constructor <;> linarith

theorem specThreshold_bounds (T P : Nat) :
    100 * specThreshold T P ≤ T * P + 50 ∧ T * P + 50 < 100 * specThreshold T P + 100 := by
  unfold specThreshold
  generalize T * P = m
  omega

/-- The reference threshold is the rational `T * P / 100` rounded to the nearest integer. -/
theorem round_eq_specThreshold (T P : Nat) :
    round ((T : ℚ) * P / 100) = (specThreshold T P : ℤ) := by
  obtain ⟨h1, h2⟩ := specThreshold_bounds T P
  have q1 : ((100 * specThreshold T P : Nat) : ℚ) ≤ ((T * P + 50 : Nat) : ℚ) := by
    exact_mod_cast h1
  have q2 : ((T * P + 50 : Nat) : ℚ) < ((100 * specThreshold T P + 100 : Nat) : ℚ) := by
    exact_mod_cast h2
  push_cast at q1 q2
  rw [round_eq, Int.floor_eq_iff]
  push_cast
  constructor <;> linarith

/-- Away from exact halves the float computation rounds like the rational one; at an exact
half it may fall one short. -/
theorem mathRound_product (T P : Nat) (hT : T < 2 ^ 44) (hP : P ≤ 100) :
    (T * P % 100 ≠ 50 →
      mathRound (F64.mul (F64.ofUint64 T) (F64.div (F64.ofUint64 P) F64.hundred))
        = specThreshold T P) ∧
    mathRound (F64.mul (F64.ofUint64 T) (F64.div (F64.ofUint64 P) F64.hundred))
        ≤ specThreshold T P ∧
    specThreshold T P
        ≤ mathRound (F64.mul (F64.ofUint64 T) (F64.div (F64.ofUint64 P) F64.hundred)) + 1 := by
  have hclose := product_close T P hT hP
  obtain ⟨h1, h2⟩ := specThreshold_bounds T P
  set v := F64.mul (F64.ofUint64 T) (F64.div (F64.ofUint64 P) F64.hundred) with hv
  set r := specThreshold T P with hr
  have hv0 := toRat_nonneg v
  have q1 : ((100 * r : Nat) : ℚ) ≤ ((T * P + 50 : Nat) : ℚ) := by exact_mod_cast h1
  have q2 : ((T * P + 50 : Nat) : ℚ) + 1 ≤ ((100 * r + 100 : Nat) : ℚ) := by
    exact_mod_cast h2
  push_cast at q1 q2
  rw [abs_le] at hclose
  obtain ⟨c1, c2⟩ := hclose
  have hup : v.toRat < r + 1 / 2 := by linarith
  refine ⟨?_, ?_, ?_⟩
  · intro hne
    have h3 : 100 * r + 1 ≤ T * P + 50 := by
      generalize T * P = m at h1 h2 hne
      omega
    have q3 : ((100 * r + 1 : Nat) : ℚ) ≤ ((T * P + 50 : Nat) : ℚ) := by exact_mod_cast h3
    push_cast at q3
    exact mathRound_eq v r (by linarith) hup
  · by_cases hlo : (r : ℚ) - 1 / 2 ≤ v.toRat
    · exact (mathRound_eq v r hlo hup).le
    · push_neg at hlo
      rcases Nat.eq_zero_or_pos r with h0 | hpos
      · rw [h0] at hlo; norm_num at hlo; linarith
      · have hr1 : ((r - 1 : Nat) : ℚ) = (r : ℚ) - 1 := by
          rw [Nat.cast_sub hpos]; simp
        have := mathRound_eq v (r - 1) (by rw [hr1]; linarith) (by rw [hr1]; linarith)
        omega
  · by_cases hlo : (r : ℚ) - 1 / 2 ≤ v.toRat
    · exact (mathRound_eq v r hlo hup).symm.le.trans (Nat.le_succ _)
    · push_neg at hlo
      rcases Nat.eq_zero_or_pos r with h0 | hpos
      · omega
      · have hr1 : ((r - 1 : Nat) : ℚ) = (r : ℚ) - 1 := by
          rw [Nat.cast_sub hpos]; simp
        have := mathRound_eq v (r - 1) (by rw [hr1]; linarith) (by rw [hr1]; linarith)
        omega

theorem specThreshold_le (T P : Nat) (hP : P ≤ 100) : specThreshold T P ≤ T := by
  unfold specThreshold
  have : T * P ≤ T * 100 := Nat.mul_le_mul_left T hP
  generalize T * P = m at this
  omega

theorem mathRound_int (v : F64) (T : Nat) (h : v.num = T * 2 ^ v.k) : mathRound v = T := by
  have hq : v.toRat = T := by
    unfold F64.toRat; rw [h]; push_cast; field_simp
  apply mathRound_eq
  · rw [hq]; linarith
  · rw [hq]; linarith

theorem thresholdBlocks_zero (oor : Nat → Nat) (T : Nat) : thresholdBlocks oor T 0 = 0 := by
  simp [thresholdBlocks, F64.ofUint64, F64.div, F64.mul, roundNearestEven, mathRound, toUint64]

set_option maxRecDepth 10000 in
theorem div_hundred_hundred :
    (F64.div (F64.ofUint64 100) F64.hundred).num
      = 2 ^ (F64.div (F64.ofUint64 100) F64.hundred).k := by
  decide

theorem thresholdBlocks_hundred (oor : Nat → Nat) (T : Nat) (hT : T < 2 ^ 53) :
    thresholdBlocks oor T 100 = T := by
  have ht : (F64.ofUint64 T).num = T * 2 ^ (F64.ofUint64 T).k := by
    have h := roundNearestEven_exact T 1 hT Nat.one_pos
    rw [mul_one] at h
    exact h
  have hc := div_hundred_hundred
  unfold thresholdBlocks
  simp only []
  generalize F64.div (F64.ofUint64 100) F64.hundred = c at hc ⊢
  generalize F64.ofUint64 T = t at ht ⊢
  have hn : t.num * c.num = T * 2 ^ (t.k + c.k) := by
    rw [ht, hc, pow_add]; ring
  have hex := roundNearestEven_exact T (2 ^ (t.k + c.k)) hT (by positivity)
  rw [← hn] at hex
  have hm : mathRound (F64.mul t c) = T := mathRound_int _ T hex
  rw [hm]
  unfold toUint64
  rw [if_pos (lt_trans hT (by norm_num))]

/-- C1, as stated, fails: with 50 blocks and 29 percent the exact value is 14.5, which
rounds to 15, while the float product is just below 14.5 and the code computes 14; with
`2 ^ 53 + 1` blocks and 100 percent the block count itself is not a float64. -/
theorem DiskUsage_threshold_inexact :
    (DiskUsage (fun _ => 0) (some ⟨50, 0, 0⟩) 29).Threshold = 14 ∧
    round ((50 : ℚ) * 29 / 100) = 15 ∧
    (DiskUsage (fun _ => 0) (some ⟨2 ^ 53 + 1, 0, 0⟩) 100).Threshold = 2 ^ 53 ∧
    round ((2 ^ 53 + 1 : ℚ) * 100 / 100) = 2 ^ 53 + 1 := by
  refine ⟨?_, ?_, ?_, ?_⟩
  · set_option maxRecDepth 10000 in decide
  · norm_num [round_eq, Int.floor_eq_iff]
  · set_option maxRecDepth 10000 in decide
  · norm_num [round_eq, Int.floor_eq_iff]

/-- C1, amended: for a block count `T < 2 ^ 44` and a percentage `P ≤ 100` the Threshold
field computed by `DiskUsage` equals `round (T * P / 100)` whenever `T * P / 100` is not
an exact half (`T * P % 100 ≠ 50`), and in every case it is `round (T * P / 100)` or one
less. -/
theorem DiskUsage_threshold_round (oor : Nat → Nat) (fs : Statfs_t) (P : Nat)
    (hT : fs.Blocks < 2 ^ 44) (hP : P ≤ 100) :
    (fs.Blocks * P % 100 ≠ 50 →
      ((DiskUsage oor (some fs) P).Threshold : ℤ) = round ((fs.Blocks : ℚ) * P / 100)) ∧
    round ((fs.Blocks : ℚ) * P / 100) - 1 ≤ ((DiskUsage oor (some fs) P).Threshold : ℤ) ∧
    ((DiskUsage oor (some fs) P).Threshold : ℤ) ≤ round ((fs.Blocks : ℚ) * P / 100) := by
  obtain ⟨h1, h2, h3⟩ := mathRound_product fs.Blocks P hT hP
  have hle := specThreshold_le fs.Blocks P hP
  have hthr : (DiskUsage oor (some fs) P).Threshold
      = mathRound (F64.mul (F64.ofUint64 fs.Blocks) (F64.div (F64.ofUint64 P) F64.hundred)) := by
    have hlt : mathRound (F64.mul (F64.ofUint64 fs.Blocks)
        (F64.div (F64.ofUint64 P) F64.hundred)) < 2 ^ 64 := by
      have : (2 : Nat) ^ 44 < 2 ^ 64 := by norm_num
      omega
    simp only [DiskUsage, thresholdBlocks, toUint64, if_pos hlt]
  rw [hthr, round_eq_specThreshold]
  refine ⟨fun hne => by rw [h1 hne], ?_, ?_⟩
  · omega
  · exact_mod_cast h2

/-- C1, amended, at the sample of the first end-to-end scenario: 1,000,000 blocks and a
threshold of 50 percent. -/
theorem DiskUsage_threshold_round_witness :
    ((1000000 : Nat) < 2 ^ 44 ∧ (50 : Nat) ≤ 100 ∧ 1000000 * 50 % 100 ≠ 50) ∧
    ((DiskUsage (fun _ => 0) (some ⟨1000000, 400000, 400000⟩) 50).Threshold : ℤ)
      = round (((1000000 : Nat) : ℚ) * (50 : Nat) / 100) :=
  ⟨by decide,
   (DiskUsage_threshold_round (fun _ => 0) ⟨1000000, 400000, 400000⟩ 50
      (by decide) (by decide)).1 (by decide)⟩

/-! ## The threshold watcher -/

theorem checkDiskUSage_reset_iff (oor : Nat → Nat) (cf : ConfigData) (env : WatchEnv)
    (counter : Nat) :
    (checkDiskUSage oor cf env counter).2 = Outcome.reset ↔
      aboveThreshold oor cf env = false := by
  unfold checkDiskUSage aboveThreshold
  simp only []
  split_ifs with h1 h2
  · split <;> simp [h1]
  · simp [h1]
  · simp [h1]

theorem checkDiskUSage_below (oor : Nat → Nat) (cf : ConfigData) (env : WatchEnv)
    (counter : Nat) (h : aboveThreshold oor cf env = false) :
    checkDiskUSage oor cf env counter = (0, Outcome.reset) := by
  unfold aboveThreshold at h
  unfold checkDiskUSage
  simp only []
  rw [if_neg (by simpa using h)]

/-- C2, as stated, fails at 100 percent: for `2 ^ 53 + 1` total blocks, none of them free,
the threshold is `2 ^ 53` and the breach branch is taken (the action is started). -/
theorem checkDiskUSage_full_breach :
    checkDiskUSage (fun _ => 0)
      { DeviceName := [], DiskUsageThreshold := 100, Action := "/bin/true".toList,
        RepeatAction := 1, RecoveryEnabled := false, RecoveryMinSize := 0,
        RecoveryDir := [], RecoveryMaxFiles := 0 }
      { statfs := some ⟨2 ^ 53 + 1, 0, 0⟩, createOk := true, startOk := true } 0
      = (1, Outcome.spawned) := by
  set_option maxRecDepth 10000 in decide

/-- C2, amended: with percentage 0 the breach branch is taken exactly when the used
blocks (`Blocks - Bfree` in 64-bit arithmetic) are nonzero; with percentage 100, a total
below `2 ^ 53` blocks and no more free blocks than total blocks, the breach branch is
never taken. -/
theorem checkDiskUSage_extremes (oor : Nat → Nat) (cf : ConfigData) (env : WatchEnv)
    (fs : Statfs_t) (counter : Nat) (hfs : env.statfs = some fs) :
    (cf.DiskUsageThreshold = 0 →
      ((checkDiskUSage oor cf env counter).2 ≠ Outcome.reset ↔
        (fs.Blocks + 2 ^ 64 - fs.Bfree) % 2 ^ 64 ≠ 0)) ∧
    (cf.DiskUsageThreshold = 100 → fs.Blocks < 2 ^ 53 → fs.Bfree ≤ fs.Blocks →
      checkDiskUSage oor cf env counter = (0, Outcome.reset)) := by
  constructor
  · intro hP
    rw [Ne, checkDiskUSage_reset_iff]
    simp only [aboveThreshold, hfs, hP, DiskUsage, thresholdBlocks_zero]
    simp [Nat.pos_iff_ne_zero]
  · intro hP hT hF
    apply checkDiskUSage_below
    simp only [aboveThreshold, hfs, hP, DiskUsage, thresholdBlocks_hundred oor fs.Blocks hT]
    simp only [gt_iff_lt, decide_eq_false_iff_not, not_lt]
    omega

/-- C2, amended, at two concrete samples: percentage 0 with one used block, and percentage
100 with a full device of 1,000,000 blocks. -/
theorem checkDiskUSage_extremes_witness :
    (checkDiskUSage (fun _ => 0)
      { DeviceName := [], DiskUsageThreshold := 0, Action := "/bin/true".toList,
        RepeatAction := 1, RecoveryEnabled := false, RecoveryMinSize := 0,
        RecoveryDir := [], RecoveryMaxFiles := 0 }
      { statfs := some ⟨1000000, 999999, 999999⟩, createOk := true, startOk := true } 0).2
        ≠ Outcome.reset ∧
    checkDiskUSage (fun _ => 0)
      { DeviceName := [], DiskUsageThreshold := 100, Action := "/bin/true".toList,
        RepeatAction := 1, RecoveryEnabled := false, RecoveryMinSize := 0,
        RecoveryDir := [], RecoveryMaxFiles := 0 }
      { statfs := some ⟨1000000, 0, 0⟩, createOk := true, startOk := true } 7
        = (0, Outcome.reset) :=
  ⟨((checkDiskUSage_extremes _ _ _ ⟨1000000, 999999, 999999⟩ 0 rfl).1 rfl).2 (by decide),
   (checkDiskUSage_extremes _ _ _ ⟨1000000, 0, 0⟩ 7 rfl).2 rfl (by decide) (by decide)⟩

theorem runInBackground_started (action : List Char) (h : fields action ≠ []) :
    ∃ exe args, runInBackground action true true = RunResult.started exe args := by
  unfold runInBackground
  cases hf : fields action with
  | nil => exact absurd hf h
  | cons exe args => exact ⟨exe, args, rfl⟩

theorem runInBackground_not_panicked (action : List Char) (h : fields action ≠ [])
    (createOk startOk : Bool) : runInBackground action createOk startOk ≠ RunResult.panicked := by
  unfold runInBackground
  cases hf : fields action with
  | nil => exact absurd hf h
  | cons exe args =>
    simp only []
    split_ifs <;> simp

/-- One call above the threshold, the spawn succeeding. -/
theorem checkDiskUSage_above (oor : Nat → Nat) (cf : ConfigData) (env : WatchEnv)
    (counter : Nat) (hact : fields cf.Action ≠ [])
    (ha : aboveThreshold oor cf env = true) (hc : env.createOk = true)
    (hs : env.startOk = true) :
    checkDiskUSage oor cf env counter =
      if cf.RepeatAction > counter then ((counter + 1) % 2 ^ 64, Outcome.spawned)
      else (counter, Outcome.limitReached) := by
  obtain ⟨exe, args, hrun⟩ := runInBackground_started cf.Action hact
  unfold aboveThreshold at ha
  unfold checkDiskUSage
  simp only []
  rw [if_pos (by simpa using ha), hc, hs, hrun]

theorem checkDiskUSage_not_panicked (oor : Nat → Nat) (cf : ConfigData) (env : WatchEnv)
    (counter : Nat) (hact : fields cf.Action ≠ []) :
    (checkDiskUSage oor cf env counter).2 ≠ Outcome.panicked := by
  have hnp := runInBackground_not_panicked cf.Action hact env.createOk env.startOk
  unfold checkDiskUSage
  simp only []
  split_ifs
  · split
    · contradiction
    · simp
    · simp
  · simp
  · simp

theorem watchRun_above (oor : Nat → Nat) (cf : ConfigData) (hR : cf.RepeatAction < 2 ^ 64)
    (hact : fields cf.Action ≠ []) :
    ∀ (envs : List WatchEnv) (counter spawns : Nat), counter ≤ cf.RepeatAction →
      (∀ e ∈ envs, aboveThreshold oor cf e = true ∧ e.createOk = true ∧ e.startOk = true) →
      watchRun oor cf envs counter spawns =
        (min (counter + envs.length) cf.RepeatAction,
         spawns + min envs.length (cf.RepeatAction - counter)) := by
  intro envs
  induction envs with
  | nil =>
    intro counter spawns hc _
    simp [watchRun, hc]
  | cons e rest ih =>
    intro counter spawns hc hall
    obtain ⟨ha, hcr, hst⟩ := hall e (List.mem_cons_self _ _)
    have hrest : ∀ x ∈ rest, aboveThreshold oor cf x = true ∧ x.createOk = true ∧
        x.startOk = true := fun x hx => hall x (List.mem_cons_of_mem _ hx)
    have hstep := checkDiskUSage_above oor cf e counter hact ha hcr hst
    unfold watchRun
    by_cases hlt : cf.RepeatAction > counter
    · rw [hstep, if_pos hlt]
      have hmod : (counter + 1) % 2 ^ 64 = counter + 1 := Nat.mod_eq_of_lt (by omega)
      simp only [hmod]
      rw [ih (counter + 1) (spawns + 1) (by omega) hrest]
      simp only [List.length_cons]
      congr 1 <;> omega
    · rw [hstep, if_neg hlt]
      simp only []
      rw [ih counter spawns hc hrest]
      simp only [List.length_cons]
      congr 1 <;> omega

/-- C3: starting from a zero counter, `n` successive calls of `checkDiskUSage` that are
all above the threshold, each spawn succeeding, start the action exactly `min n R` times,
where `R` is the repeat limit (a 64-bit value). -/
theorem watchRun_spawns_min (oor : Nat → Nat) (cf : ConfigData) (envs : List WatchEnv)
    (hR : cf.RepeatAction < 2 ^ 64) (hact : fields cf.Action ≠ [])
    (hall : ∀ e ∈ envs, aboveThreshold oor cf e = true ∧ e.createOk = true ∧
      e.startOk = true) :
    (watchRun oor cf envs 0 0).2 = min envs.length cf.RepeatAction := by
  rw [watchRun_above oor cf hR hact envs 0 0 (Nat.zero_le _) hall]
  simp

/-- C3 at the second end-to-end scenario: repeat limit 3, five successive events with
1,000,000 blocks of which 400,000 are free and a threshold of 50 percent; the action is
started exactly three times. -/
theorem watchRun_spawns_min_witness :
    (watchRun (fun _ => 0)
      { DeviceName := [], DiskUsageThreshold := 50, Action := "/bin/true".toList,
        RepeatAction := 3, RecoveryEnabled := false, RecoveryMinSize := 0,
        RecoveryDir := [], RecoveryMaxFiles := 0 }
      (List.replicate 5
        { statfs := some ⟨1000000, 400000, 400000⟩, createOk := true, startOk := true })
      0 0).2 = 3 :=
  watchRun_spawns_min (fun _ => 0) _ _ (by decide) (by decide)
    (by
      intro e he
      rw [List.eq_of_mem_replicate he]
      set_option maxRecDepth 10000 in decide)

theorem watchRun_cons (oor : Nat → Nat) (cf : ConfigData) (e : WatchEnv)
    (rest : List WatchEnv) (counter spawns : Nat) :
    watchRun oor cf (e :: rest) counter spawns =
      match checkDiskUSage oor cf e counter with
      | (c, Outcome.spawned) => watchRun oor cf rest c (spawns + 1)
      | (_, Outcome.panicked) => (counter, spawns)
      | (c, _) => watchRun oor cf rest c spawns := by
  rw [watchRun]

theorem watchRun_append (oor : Nat → Nat) (cf : ConfigData) (hact : fields cf.Action ≠ []) :
    ∀ (l1 l2 : List WatchEnv) (counter spawns : Nat),
      watchRun oor cf (l1 ++ l2) counter spawns =
        watchRun oor cf l2 (watchRun oor cf l1 counter spawns).1
          (watchRun oor cf l1 counter spawns).2 := by
  intro l1
  induction l1 with
  | nil => intro l2 counter spawns; simp [watchRun]
  | cons e rest ih =>
    intro l2 counter spawns
    have hnp := checkDiskUSage_not_panicked oor cf e counter hact
    simp only [List.cons_append, watchRun_cons]
    rcases hstep : checkDiskUSage oor cf e counter with ⟨c, o⟩
    rw [hstep] at hnp
    cases o with
    | panicked => exact absurd rfl hnp
    | spawned => simp only []; exact ih l2 c (spawns + 1)
    | spawnFailed => simp only []; exact ih l2 c spawns
    | limitReached => simp only []; exact ih l2 c spawns
    | reset => simp only []; exact ih l2 c spawns

/-- C4, as stated, fails for the repeat limit 0: after a sample below the threshold the
next sample above it starts nothing. -/
theorem watchRun_limit_zero_no_spawn :
    watchRun (fun _ => 0)
      { DeviceName := [], DiskUsageThreshold := 50, Action := "/bin/true".toList,
        RepeatAction := 0, RecoveryEnabled := false, RecoveryMinSize := 0,
        RecoveryDir := [], RecoveryMaxFiles := 0 }
      [{ statfs := some ⟨1000000, 900000, 900000⟩, createOk := true, startOk := true },
       { statfs := some ⟨1000000, 400000, 400000⟩, createOk := true, startOk := true }]
      0 0 = (0, 0) := by
  set_option maxRecDepth 10000 in decide

/-- C4, amended: for a repeat limit of at least one and an action that has an executable,
whatever calls came before, a sample below the threshold followed by a sample above it
whose spawn succeeds starts the action exactly once: the call above the threshold takes
the spawn branch and leaves the counter at one, and the number of processes started by
the whole run grows by one. -/
theorem watchRun_spawn_after_reset (oor : Nat → Nat) (cf : ConfigData)
    (hist : List WatchEnv) (below above : WatchEnv)
    (hR : 1 ≤ cf.RepeatAction) (hact : fields cf.Action ≠ [])
    (hb : aboveThreshold oor cf below = false) (ha : aboveThreshold oor cf above = true)
    (hc : above.createOk = true) (hs : above.startOk = true) :
    (∀ counter, checkDiskUSage oor cf above (checkDiskUSage oor cf below counter).1
      = (1, Outcome.spawned)) ∧
    (watchRun oor cf (hist ++ [below, above]) 0 0).2 = (watchRun oor cf hist 0 0).2 + 1 := by
  have hstep : ∀ counter, checkDiskUSage oor cf above (checkDiskUSage oor cf below counter).1
      = (1, Outcome.spawned) := by
    intro counter
    rw [checkDiskUSage_below oor cf below counter hb,
      checkDiskUSage_above oor cf above 0 hact ha hc hs, if_pos (by omega)]
    rfl
  refine ⟨hstep, ?_⟩
  rw [watchRun_append oor cf hact]
  have h2 := hstep (watchRun oor cf hist 0 0).1
  rw [checkDiskUSage_below oor cf below _ hb] at h2
  simp only [watchRun_cons, watchRun, checkDiskUSage_below oor cf below _ hb, h2]

/-- C4, amended, on a run: two breaching samples exhaust the repeat limit 1, then a sample
below the threshold and one above it. -/
theorem watchRun_spawn_after_reset_witness :
    (watchRun (fun _ => 0)
      { DeviceName := [], DiskUsageThreshold := 50, Action := "/bin/true".toList,
        RepeatAction := 1, RecoveryEnabled := false, RecoveryMinSize := 0,
        RecoveryDir := [], RecoveryMaxFiles := 0 }
      ([{ statfs := some ⟨1000000, 400000, 400000⟩, createOk := true, startOk := true },
        { statfs := some ⟨1000000, 300000, 300000⟩, createOk := true, startOk := true }] ++
       [{ statfs := some ⟨1000000, 900000, 900000⟩, createOk := true, startOk := true },
        { statfs := some ⟨1000000, 400000, 400000⟩, createOk := true, startOk := true }])
      0 0).2 = 1 + 1 :=
  (watchRun_spawn_after_reset (fun _ => 0) _ _ _ _ (by decide) (by decide)
    (by set_option maxRecDepth 10000 in decide)
    (by set_option maxRecDepth 10000 in decide) rfl rfl).2.trans
    (by set_option maxRecDepth 10000 in decide)

/-! ## Recovery file names -/

theorem digitChar_isDigit : ∀ k, k < 10 → 48 ≤ (Nat.digitChar k).toNat ∧ (Nat.digitChar k).toNat ≤ 57 := by
  decide

theorem toDigitsCore_digits (fuel : Nat) : ∀ (n : Nat) (ds : List Char),
    (∀ c ∈ ds, 48 ≤ c.toNat ∧ c.toNat ≤ 57) →
    ∀ c ∈ Nat.toDigitsCore 10 fuel n ds, 48 ≤ c.toNat ∧ c.toNat ≤ 57 := by
  induction fuel with
  | zero => intro n ds h; simpa [Nat.toDigitsCore] using h
  | succ f ih =>
    intro n ds h
    have hd := digitChar_isDigit (n % 10) (Nat.mod_lt _ (by norm_num))
    have hcons : ∀ c ∈ Nat.digitChar (n % 10) :: ds, 48 ≤ c.toNat ∧ c.toNat ≤ 57 := by
      intro c hc
      rcases List.mem_cons.1 hc with rfl | hc
      · exact hd
      · exact h c hc
    unfold Nat.toDigitsCore
    simp only []
    split_ifs
    · exact hcons
    · exact ih _ _ hcons

theorem toDigitsCore_ne_nil (fuel : Nat) : ∀ (n : Nat) (ds : List Char),
    (fuel ≠ 0 ∨ ds ≠ []) → Nat.toDigitsCore 10 fuel n ds ≠ [] := by
  induction fuel with
  | zero => intro n ds h; rcases h with h | h; exact absurd rfl h; simpa [Nat.toDigitsCore] using h
  | succ f ih =>
    intro n ds _
    unfold Nat.toDigitsCore
    simp only []
    split_ifs
    · simp
    · exact ih _ _ (Or.inr (by simp))

theorem decimal_isDigits (n : Nat) : IsDigits (decimal n) := by
  constructor
  · unfold decimal
    intro h
    exact toDigitsCore_ne_nil (n + 1) n [] (Or.inl (by omega)) (List.map_eq_nil_iff.1 h)
  · intro b hb
    unfold decimal at hb
    obtain ⟨c, hc, rfl⟩ := List.mem_map.1 hb
    exact toDigitsCore_digits (n + 1) n [] (by simp) c hc

theorem filepathBase_ne_nil (path : Bytes) : filepathBase path ≠ [] := by
  unfold filepathBase
  simp only []
  split_ifs with h1 h2
  · decide
  · decide
  · exact h2

theorem recoveryBasename_ne_nil (path : Bytes) (inode : Nat) :
    recoveryBasename path inode ≠ [] := by
  unfold recoveryBasename
  simp only []
  split_ifs
  · simp [lit]
  · exact filepathBase_ne_nil path

theorem stripTrailingSlashes_append_slash (p : Bytes) :
    stripTrailingSlashes (p ++ lit "/") = stripTrailingSlashes p := by
  simp [stripTrailingSlashes, lit, List.dropWhile]

theorem filepathBase_append_slash (p : Bytes) (hp : p ≠ []) :
    filepathBase (p ++ lit "/") = filepathBase p := by
  unfold filepathBase
  rw [if_neg hp, if_neg (by simp [hp]), stripTrailingSlashes_append_slash]

theorem MatchesRecoveryPattern_head (name : Bytes) (h : MatchesRecoveryPattern name) :
    ∃ b rest, name = b :: rest ∧ 48 ≤ b ∧ b ≤ 57 := by
  obtain ⟨d1, mid, d2, ⟨hne, hdig⟩, _, _, hname⟩ := h
  cases d1 with
  | nil => exact absurd rfl hne
  | cons b tl =>
    refine ⟨b, tl ++ lit "_" ++ mid ++ lit "_inode" ++ d2, ?_, hdig b (List.mem_cons_self _ _)⟩
    rw [hname]; simp

/-- C5, as stated, fails: the path `/tmp/dir/` ends in a slash, yet its middle component
is `dir` and not `unnamed_42`, since `filepath.Base` drops trailing slashes; and with a
clock before 1970 the name starts with a minus sign and does not match the pattern. -/
theorem recoveryFilename_trailing_slash :
    recoveryFilename 1700000000 (lit "/tmp/dir/") 42 = lit "1700000000_dir_inode42" ∧
    recoveryBasename (lit "/tmp/dir/") 42 = lit "dir" ∧
    recoveryBasename (lit "/tmp/dir/") 42 ≠ lit "unnamed_" ++ decimal 42 ∧
    recoveryFilename (-5) (lit ".") 42 = lit "-5_unnamed_42_inode42" ∧
    ¬ MatchesRecoveryPattern (recoveryFilename (-5) (lit ".") 42) := by
  refine ⟨by decide, by decide, by decide, by decide, ?_⟩
  intro h
  obtain ⟨b, rest, hname, hb, _⟩ := MatchesRecoveryPattern_head _ h
  have h45 : recoveryFilename (-5) (lit ".") 42 = 45 :: lit "5_unnamed_42_inode42" := by decide
  rw [h45] at hname
  injection hname with h1 _
  omega

/-- C5, amended: for every original path, non-negative timestamp and inode the recovery
file name is `<timestamp>_<middle>_inode<inode>` with decimal numbers and a non-empty
middle component; the middle component is `unnamed_<inode>` when `filepath.Base` of the
path is `.` (so for the empty path and for `.`) and is `filepath.Base` of the path
otherwise; a path `p/` with non-empty `p` has the middle component of `p`. -/
theorem recoveryFilename_pattern (timestamp : Int) (path : Bytes) (inode : Nat)
    (hts : 0 ≤ timestamp) :
    MatchesRecoveryPattern (recoveryFilename timestamp path inode) ∧
    recoveryFilename timestamp path inode =
      decimal timestamp.toNat ++ lit "_" ++ recoveryBasename path inode ++ lit "_inode" ++
        decimal inode ∧
    (path = [] ∨ path = lit "." → recoveryBasename path inode = lit "unnamed_" ++ decimal inode) ∧
    (filepathBase path = lit "." →
      recoveryBasename path inode = lit "unnamed_" ++ decimal inode) ∧
    (filepathBase path ≠ lit "." → recoveryBasename path inode = filepathBase path) ∧
    (path ≠ [] → recoveryBasename (path ++ lit "/") inode = recoveryBasename path inode) := by
  have hname : recoveryFilename timestamp path inode =
      decimal timestamp.toNat ++ lit "_" ++ recoveryBasename path inode ++ lit "_inode" ++
        decimal inode := by
    unfold recoveryFilename decimalInt
    rw [if_neg (by omega)]
  have hdot : filepathBase path = lit "." →
      recoveryBasename path inode = lit "unnamed_" ++ decimal inode := by
    intro h
    unfold recoveryBasename
    simp [h]
  refine ⟨?_, hname, ?_, hdot, ?_, ?_⟩
  · exact ⟨decimal timestamp.toNat, recoveryBasename path inode, decimal inode,
      decimal_isDigits _, recoveryBasename_ne_nil path inode, decimal_isDigits _, hname⟩
  · rintro (h | h)
    · subst h; exact hdot (by decide)
    · subst h; exact hdot (by decide)
  · intro h
    unfold recoveryBasename
    simp only []
    rw [if_neg]
    rintro (h1 | h1)
    · exact filepathBase_ne_nil path h1
    · exact h h1
  · intro hp
    unfold recoveryBasename
    rw [filepathBase_append_slash path hp]

/-- C5, amended, at the path `/var/log/app.log`, timestamp 1700000000 and inode 42. -/
theorem recoveryFilename_pattern_witness :
    (0 : Int) ≤ 1700000000 ∧
    MatchesRecoveryPattern (recoveryFilename 1700000000 (lit "/var/log/app.log") 42) ∧
    recoveryFilename 1700000000 (lit "/var/log/app.log") 42
      = lit "1700000000_app.log_inode42" :=
  ⟨by decide,
   (recoveryFilename_pattern 1700000000 (lit "/var/log/app.log") 42 (by decide)).1,
   by decide⟩

/-! ## Device identifier -/

theorem devid_eq_add (major minor : Nat) (hmaj : major < 2 ^ 32) (hmin : minor < 2 ^ 20) :
    devid major minor = 2 ^ 20 * major + minor ∧
    (major <<< 20) ||| minor = 2 ^ 20 * major + minor := by
  have h1 : major <<< 20 = 2 ^ 20 * major := by rw [Nat.shiftLeft_eq, Nat.mul_comm]
  have h2 : 2 ^ 20 * major % 2 ^ 64 = 2 ^ 20 * major := Nat.mod_eq_of_lt (by omega)
  have h3 := Nat.mul_add_lt_is_or hmin major
  unfold devid
  rw [h1, h2, ← h3]
  exact ⟨rfl, rfl⟩

theorem handle_io_devid (env : HandleIoEnv) (cf cf1 : ConfigData) (di : Devinfo)
    (h : handle_io env cf = some (cf1, di)) :
    ∃ link major minor, env.isSymlink cf.DeviceName = some link ∧
      env.getDeviceNumbers (resolvedDeviceName link cf.DeviceName) = some (major, minor) ∧
      di.Devid = devid major minor := by
  unfold handle_io at h
  cases hm : env.findMountPoint cf.DeviceName with
  | none => rw [hm] at h; simp at h
  | some mp =>
    rw [hm] at h
    simp only [] at h
    cases hl : env.isSymlink cf.DeviceName with
    | none => rw [hl] at h; simp at h
    | some link =>
      rw [hl] at h
      simp only [] at h
      cases hn : env.getDeviceNumbers (resolvedDeviceName link cf.DeviceName) with
      | none => rw [hn] at h; simp at h
      | some mm =>
        obtain ⟨major, minor⟩ := mm
        rw [hn] at h
        simp only [Option.some.injEq, Prod.mk.injEq] at h
        exact ⟨link, major, minor, rfl, hn, by rw [← h.2]⟩

/-- C6: when `handle_io` succeeds with a major number that fits in 32 bits and a minor
number below `2 ^ 20`, the device identifier it stores is `(major << 20) | minor`, a
64-bit value; shifting it right by 20 gives back the major number, masking it with
`2 ^ 20 - 1` gives back the minor number, and two pairs of that domain with the same
encoding are equal. -/
theorem handle_io_devid_encoding (env : HandleIoEnv) (cf cf1 : ConfigData) (di : Devinfo)
    (link : Option Bytes) (major minor : Nat) (h : handle_io env cf = some (cf1, di))
    (hlink : env.isSymlink cf.DeviceName = some link)
    (hnum : env.getDeviceNumbers (resolvedDeviceName link cf.DeviceName) = some (major, minor))
    (hmaj : major < 2 ^ 32) (hmin : minor < 2 ^ 20) :
    di.Devid = (major <<< 20) ||| minor ∧ di.Devid < 2 ^ 64 ∧
    di.Devid >>> 20 = major ∧ di.Devid &&& (2 ^ 20 - 1) = minor ∧
    (∀ major1 minor1, major1 < 2 ^ 32 → minor1 < 2 ^ 20 →
      devid major1 minor1 = di.Devid → major1 = major ∧ minor1 = minor) := by
  obtain ⟨lk, mj, mn, hl, hn, hd⟩ := handle_io_devid env cf cf1 di h
  rw [hlink] at hl
  obtain rfl := Option.some.inj hl
  rw [hnum] at hn
  simp only [Option.some.injEq, Prod.mk.injEq] at hn
  obtain ⟨rfl, rfl⟩ := hn
  obtain ⟨e1, e2⟩ := devid_eq_add major minor hmaj hmin
  rw [hd, e1]
  refine ⟨e2.symm, by omega, ?_, ?_, ?_⟩
  · rw [Nat.shiftRight_eq_div_pow]; omega
  · rw [Nat.and_pow_two_sub_one_eq_mod]; omega
  · intro major1 minor1 h1 h2 heq
    rw [(devid_eq_add major1 minor1 h1 h2).1] at heq
    omega

/-- C6 at the device 8:1 (`/dev/sda1`, not a symbolic link, mounted on `/mnt`): the
identifier is 8388609. -/
theorem handle_io_devid_encoding_witness :
    handle_io
        { findMountPoint := fun _ => some (lit "/mnt"), isSymlink := fun _ => some none,
          getDeviceNumbers := fun _ => some (8, 1) }
        { DeviceName := lit "/dev/sda1", DiskUsageThreshold := 50,
          Action := "/bin/true".toList, RepeatAction := 1, RecoveryEnabled := false,
          RecoveryMinSize := 0, RecoveryDir := [], RecoveryMaxFiles := 0 }
      = some
        ({ DeviceName := lit "/dev/sda1", DiskUsageThreshold := 50,
           Action := "/bin/true".toList, RepeatAction := 1, RecoveryEnabled := false,
           RecoveryMinSize := 0, RecoveryDir := [], RecoveryMaxFiles := 0 },
         { Devid := 8388609, MountPoint := lit "/mnt" }) ∧
    (8388609 : Nat) = (8 <<< 20) ||| 1 ∧ (8388609 : Nat) >>> 20 = 8 ∧
    (8388609 : Nat) &&& (2 ^ 20 - 1) = 1 :=
  have w := handle_io_devid_encoding
    { findMountPoint := fun _ => some (lit "/mnt"), isSymlink := fun _ => some none,
      getDeviceNumbers := fun _ => some (8, 1) }
    { DeviceName := lit "/dev/sda1", DiskUsageThreshold := 50,
      Action := "/bin/true".toList, RepeatAction := 1, RecoveryEnabled := false,
      RecoveryMinSize := 0, RecoveryDir := [], RecoveryMaxFiles := 0 }
    { DeviceName := lit "/dev/sda1", DiskUsageThreshold := 50,
      Action := "/bin/true".toList, RepeatAction := 1, RecoveryEnabled := false,
      RecoveryMinSize := 0, RecoveryDir := [], RecoveryMaxFiles := 0 }
    { Devid := 8388609, MountPoint := lit "/mnt" } none 8 1 (by decide) rfl rfl (by decide)
    (by decide)
  ⟨by decide, w.1, w.2.2.1, w.2.2.2.1⟩

/-! ## Wire format of the recovery ring -/

theorem putField_one (img field : Bytes) : putField img 1 field = img ++ field := by
  simp [putField, alignTo, Nat.mod_one]

theorem leBytes_length (w v : Nat) : (leBytes w v).length = w := by
  induction w generalizing v with
  | zero => rfl
  | succ n ih => simp [leBytes, ih]

theorem alignTo_eq (img : Bytes) (a : Nat) (h : img.length % a = 0) : alignTo img a = img := by
  simp [alignTo, h]

theorem alignTo_pad (img : Bytes) (h : img.length % 8 = 4) :
    alignTo img 8 = img ++ [0, 0, 0, 0] := by
  simp [alignTo, h, List.replicate]

theorem alignedImage_eq (ev : RecoveryEvent) :
    alignedImage ev =
      (leBytes 4 ev.Pid ++ leBytes 4 ev.PidWithFd ++ leBytes 4 ev.FdNumber ++ [0, 0, 0, 0] ++
      leBytes 8 ev.Inode ++ leBytes 4 ev.Dev ++ [0, 0, 0, 0] ++ leBytes 8 ev.FileSize) ++
      (ev.Filename ++ ev.Comm) := by
  unfold alignedImage
  simp only [putField_one]
  simp only [putField]
  rw [alignTo_eq [] 4 rfl, List.nil_append,
    alignTo_eq (leBytes 4 ev.Pid) 4 (by simp [leBytes_length]),
    alignTo_eq (leBytes 4 ev.Pid ++ leBytes 4 ev.PidWithFd) 4 (by simp [leBytes_length]),
    alignTo_pad (leBytes 4 ev.Pid ++ leBytes 4 ev.PidWithFd ++ leBytes 4 ev.FdNumber)
      (by simp [leBytes_length]),
    alignTo_eq _ 4 (by simp [leBytes_length]),
    alignTo_pad _ (by simp [leBytes_length])]
  simp only [List.append_assoc]

theorem alignedImage_prefix (ev : RecoveryEvent) :
    ∃ tail, alignedImage ev =
      ev.Pid % 256 :: ev.Pid / 256 % 256 :: ev.Pid / 256 / 256 % 256 ::
      ev.Pid / 256 / 256 / 256 % 256 ::
      ev.PidWithFd % 256 :: ev.PidWithFd / 256 % 256 :: ev.PidWithFd / 256 / 256 % 256 ::
      ev.PidWithFd / 256 / 256 / 256 % 256 ::
      ev.FdNumber % 256 :: ev.FdNumber / 256 % 256 :: ev.FdNumber / 256 / 256 % 256 ::
      ev.FdNumber / 256 / 256 / 256 % 256 ::
      0 :: 0 :: 0 :: 0 ::
      ev.Inode % 256 :: ev.Inode / 256 % 256 :: ev.Inode / 256 / 256 % 256 ::
      ev.Inode / 256 / 256 / 256 % 256 :: tail := by
  rw [alignedImage_eq]
  simp only [leBytes, List.append_assoc, List.cons_append, List.nil_append]
  exact ⟨_, rfl⟩

theorem leValue_leBytes4 (v : Nat) (h : v < 2 ^ 32) : leValue (leBytes 4 v) = v := by
  simp only [leBytes, leValue]
  omega

/-- The decoder applied to the aligned image of any well-formed record: the three leading
fields are right, the inode is read four bytes early and is wrong unless it is zero. -/
theorem decodeRecoveryEvent_alignedImage_inode (ev : RecoveryEvent) (hwf : ev.WellFormed) :
    ∃ ev1, decodeRecoveryEvent (alignedImage ev) = some ev1 ∧
      ev1.Pid = ev.Pid ∧ ev1.PidWithFd = ev.PidWithFd ∧ ev1.FdNumber = ev.FdNumber ∧
      ev1.Inode = 2 ^ 32 * (ev.Inode % 2 ^ 32) ∧ (ev.Inode ≠ 0 → ev1.Inode ≠ ev.Inode) := by
  obtain ⟨h1, h2, h3, h4, h5, h6, h7, h8, _, _⟩ := hwf
  obtain ⟨tail, himg⟩ := alignedImage_prefix ev
  have hlen : ¬ (alignedImage ev).length < 304 := by
    rw [alignedImage_eq ev]
    simp only [List.length_append, h7, h8, leBytes_length]
    simp
  have hpid : leValue (((alignedImage ev).drop 0).take 4) = ev.Pid := by
    rw [himg]; simp only [List.drop, List.take, leValue]; omega
  have hpwf : leValue (((alignedImage ev).drop 4).take 4) = ev.PidWithFd := by
    rw [himg]; simp only [List.drop, List.take, leValue]; omega
  have hfd : leValue (((alignedImage ev).drop 8).take 4) = ev.FdNumber := by
    rw [himg]; simp only [List.drop, List.take, leValue]; omega
  have hino : leValue (((alignedImage ev).drop 12).take 8) = 2 ^ 32 * (ev.Inode % 2 ^ 32) := by
    rw [himg]; simp only [List.drop, List.take, leValue]; omega
  have hdec : decodeRecoveryEvent (alignedImage ev) = some
      { Pid := leValue (((alignedImage ev).drop 0).take 4)
        PidWithFd := leValue (((alignedImage ev).drop 4).take 4)
        FdNumber := leValue (((alignedImage ev).drop 8).take 4)
        Inode := leValue (((alignedImage ev).drop 12).take 8)
        Dev := leValue (((alignedImage ev).drop 20).take 4)
        FileSize := leValue (((alignedImage ev).drop 24).take 8)
        Filename := ((alignedImage ev).drop 32).take 256
        Comm := ((alignedImage ev).drop 288).take 16 } := by
    unfold decodeRecoveryEvent
    exact if_neg hlen
  refine ⟨_, hdec, ?_, ?_, ?_, ?_, ?_⟩
  · dsimp only; exact hpid
  · dsimp only; exact hpwf
  · dsimp only; exact hfd
  · dsimp only; exact hino
  · intro hne
    dsimp only
    rw [hino]
    omega

/-- C7, evaluated: the record with pid 100, holder pid 200, holder fd 3, inode 1, device 5,
size 6, file name `a.txt` and command `rm` is laid out naturally aligned in 312 bytes;
`binary.Read` reads the first 304 of them without padding and returns inode `2 ^ 32`,
device 0, size 5, a file name that starts with the eight bytes of the size, and a command
that starts eight bytes before the end of the file-name buffer. Only the three leading
32-bit fields come back unchanged. -/
theorem decodeRecoveryEvent_alignedImage_mismatch :
    (alignedImage
      { Pid := 100, PidWithFd := 200, FdNumber := 3, Inode := 1, Dev := 5, FileSize := 6,
        Filename := lit "a.txt" ++ List.replicate 251 0,
        Comm := lit "rm" ++ List.replicate 14 0 }).length = 312 ∧
    decodeRecoveryEvent (alignedImage
      { Pid := 100, PidWithFd := 200, FdNumber := 3, Inode := 1, Dev := 5, FileSize := 6,
        Filename := lit "a.txt" ++ List.replicate 251 0,
        Comm := lit "rm" ++ List.replicate 14 0 })
    = some
      { Pid := 100, PidWithFd := 200, FdNumber := 3, Inode := 2 ^ 32, Dev := 0, FileSize := 5,
        Filename := [6, 0, 0, 0, 0, 0, 0, 0] ++ lit "a.txt" ++ List.replicate 243 0,
        Comm := List.replicate 8 0 ++ lit "rm" ++ List.replicate 6 0 } := by
  set_option maxRecDepth 100000 in exact ⟨rfl, rfl⟩

/-! ## The recovery handler and its counters -/

theorem handleRecoveryEvents_single (join : Bytes → Bytes → Bytes) (config : RecoveryConfig)
    (env : RecoverEnv) (raw : Bytes) (event : RecoveryEvent) (st : HandlerState)
    (hdec : decodeRecoveryEvent raw = some event) :
    handleRecoveryEvents join config [(PerfRead.record 0 raw, env)] st
      = handleRecoveryEvent join config env event st := by
  simp [handleRecoveryEvents, hdec]

/-- C8: for a decoded event without a holder (`PidWithFd = 0` or `FdNumber = 0`)
`handleRecoveryEvents` adds one to the deleted counter and one to the failed counter
(64-bit increments), leaves the other counters alone and does not call
`recoverFileFromFd`, so that no file-system call is made; for an event with
`PidWithFd > 0` and `FdNumber > 0` it calls `recoverFileFromFd` once, with exactly the
holder pid, the holder fd, the inode, the zero-terminated file name and the size of the
event. -/
theorem handleRecoveryEvents_dispatch (join : Bytes → Bytes → Bytes)
    (config : RecoveryConfig) (env : RecoverEnv) (raw : Bytes) (event : RecoveryEvent)
    (st : HandlerState) (hdec : decodeRecoveryEvent raw = some event) :
    (event.PidWithFd = 0 ∨ event.FdNumber = 0 →
      handleRecoveryEvents join config [(PerfRead.record 0 raw, env)] st =
        { stats :=
            { FilesTracked := st.stats.FilesTracked
              FilesDeleted := (st.stats.FilesDeleted + 1) % 2 ^ 64
              FilesRecovered := st.stats.FilesRecovered
              RecoveryFailed := (st.stats.RecoveryFailed + 1) % 2 ^ 64
              TotalBytesRecovered := st.stats.TotalBytesRecovered }
          calls := st.calls
          ops := st.ops }) ∧
    (event.PidWithFd > 0 ∧ event.FdNumber > 0 →
      (handleRecoveryEvents join config [(PerfRead.record 0 raw, env)] st).calls =
        st.calls ++
          [{ pid := event.PidWithFd, fd := event.FdNumber, inode := event.Inode,
             originalPath := nullTerminatedString event.Filename, size := event.FileSize }] ∧
      (handleRecoveryEvents join config [(PerfRead.record 0 raw, env)] st).ops =
        st.ops ++
          (recoverFileFromFd join event.PidWithFd event.FdNumber event.Inode
            (nullTerminatedString event.Filename) event.FileSize config env).2 ∧
      (handleRecoveryEvents join config [(PerfRead.record 0 raw, env)] st).stats.FilesDeleted
        = (st.stats.FilesDeleted + 1) % 2 ^ 64) := by
  rw [handleRecoveryEvents_single join config env raw event st hdec]
  constructor
  · intro h
    have hn : ¬ (event.PidWithFd > 0 ∧ event.FdNumber > 0) := by omega
    unfold handleRecoveryEvent
    simp only []
    rw [if_neg hn]
    rfl
  · intro h
    unfold handleRecoveryEvent
    simp only []
    rw [if_pos h]
    refine ⟨rfl, rfl, ?_⟩
    dsimp only
    split <;> rfl

/-- C8 on two records: an all-zero record (no holder) and a record with holder pid 200 and
holder fd 3 whose descriptor has gone. -/
theorem handleRecoveryEvents_dispatch_witness :
    handleRecoveryEvents (fun d n => d ++ lit "/" ++ n) ⟨true, 0, lit "/rec", 1000⟩
        [(PerfRead.record 0 (List.replicate 304 0),
          ⟨0, [], false, false, false, false, 0, false, false, false⟩)]
        ⟨⟨0, 4, 1, 3, 10⟩, [], []⟩
      = ⟨⟨0, 5, 1, 4, 10⟩, [], []⟩ ∧
    (handleRecoveryEvents (fun d n => d ++ lit "/" ++ n) ⟨true, 0, lit "/rec", 1000⟩
        [(PerfRead.record 0 ([1, 0, 0, 0, 200, 0, 0, 0, 3, 0, 0, 0] ++ List.replicate 292 0),
          ⟨0, [], false, false, false, false, 0, false, false, false⟩)]
        ⟨⟨0, 4, 1, 3, 10⟩, [], []⟩).calls
      = [{ pid := 200, fd := 3, inode := 0, originalPath := [], size := 0 }] :=
  ⟨(handleRecoveryEvents_dispatch _ _ _ (List.replicate 304 0)
      ⟨0, 0, 0, 0, 0, 0, List.replicate 256 0, List.replicate 16 0⟩ _
      (by set_option maxRecDepth 100000 in decide)).1 (Or.inl rfl),
   ((handleRecoveryEvents_dispatch _ _ _
      ([1, 0, 0, 0, 200, 0, 0, 0, 3, 0, 0, 0] ++ List.replicate 292 0)
      ⟨1, 200, 3, 0, 0, 0, List.replicate 256 0, List.replicate 16 0⟩ _
      (by set_option maxRecDepth 100000 in decide)).2 (by decide)).1.trans
        (by set_option maxRecDepth 100000 in decide)⟩

/-- C9, as stated, fails: the counters are 64-bit and wrap; with a byte total of
`2 ^ 64 - 1`, `IncrementRecovered 1` leaves a byte total of 0. -/
theorem IncrementRecovered_wraps :
    ((⟨0, 1, 0, 0, 2 ^ 64 - 1⟩ : RecoveryStats).apply (StatsOp.recovered 1)).TotalBytesRecovered
      = 0 ∧
    ¬ ((⟨0, 1, 0, 0, 2 ^ 64 - 1⟩ : RecoveryStats).TotalBytesRecovered ≤
      ((⟨0, 1, 0, 0, 2 ^ 64 - 1⟩ : RecoveryStats).apply
        (StatsOp.recovered 1)).TotalBytesRecovered) := by
  decide

/-- C9, amended: for every stats state and every stats operation whose additions stay
below `2 ^ 64`, each of the five counters is at least what it was before. -/
theorem apply_monotone (rs : RecoveryStats) (op : StatsOp) (hfit : op.fits rs) :
    rs.FilesTracked ≤ (rs.apply op).FilesTracked ∧
    rs.FilesDeleted ≤ (rs.apply op).FilesDeleted ∧
    rs.FilesRecovered ≤ (rs.apply op).FilesRecovered ∧
    rs.RecoveryFailed ≤ (rs.apply op).RecoveryFailed ∧
    rs.TotalBytesRecovered ≤ (rs.apply op).TotalBytesRecovered := by
  cases op with
  | tracked =>
    have h : rs.FilesTracked + 1 < 2 ^ 64 := hfit
    simp only [RecoveryStats.apply, RecoveryStats.IncrementTracked]
    omega
  | deleted =>
    have h : rs.FilesDeleted + 1 < 2 ^ 64 := hfit
    simp only [RecoveryStats.apply, RecoveryStats.IncrementDeleted]
    omega
  | recovered b =>
    have h : rs.FilesRecovered + 1 < 2 ^ 64 ∧ rs.TotalBytesRecovered + b < 2 ^ 64 := hfit
    simp only [RecoveryStats.apply, RecoveryStats.IncrementRecovered]
    omega
  | failed =>
    have h : rs.RecoveryFailed + 1 < 2 ^ 64 := hfit
    simp only [RecoveryStats.apply, RecoveryStats.IncrementFailed]
    omega

/-- C9, amended, at a recovery of 65536 bytes. -/
theorem apply_monotone_witness :
    (StatsOp.recovered 65536).fits ⟨7, 3, 1, 1, 4096⟩ ∧
    (4096 : Nat) ≤ ((⟨7, 3, 1, 1, 4096⟩ : RecoveryStats).apply
      (StatsOp.recovered 65536)).TotalBytesRecovered :=
  ⟨by simp [StatsOp.fits],
   (apply_monotone ⟨7, 3, 1, 1, 4096⟩ (StatsOp.recovered 65536)
     (by simp [StatsOp.fits])).2.2.2.2⟩

/-! ## Order of the file-system calls of a recovery -/

theorem filesAfter_copy_failed (files : List Bytes) (src dst : Bytes) :
    dst ∉ filesAfter
      [FsOp.lstat src true, FsOp.openRead src true, FsOp.create dst true,
       FsOp.copy dst src false, FsOp.remove dst true, FsOp.close dst, FsOp.close src] files := by
  simp [filesAfter]

/-- C10, as stated, fails: the result of `os.Remove` is dropped, so when the copy fails
and the removal of the partial destination fails as well, the copy error is returned while
the destination `/rec/1700000000_a.log_inode42` is still among the files. -/
theorem recoverFileFromFd_partial_file_stays :
    (recoverFileFromFd (fun d n => d ++ lit "/" ++ n) 200 3 42 (lit "/tmp/a.log") 4096
        ⟨true, 0, lit "/rec", 1000⟩
        ⟨1700000000, lit "2023-11-14T22:13:20Z", true, true, true, false, 0, false, true,
          true⟩).1 = some RecoverError.copyFailed ∧
    FsOp.remove (lit "/rec/1700000000_a.log_inode42") false ∈
      (recoverFileFromFd (fun d n => d ++ lit "/" ++ n) 200 3 42 (lit "/tmp/a.log") 4096
        ⟨true, 0, lit "/rec", 1000⟩
        ⟨1700000000, lit "2023-11-14T22:13:20Z", true, true, true, false, 0, false, true,
          true⟩).2 ∧
    lit "/rec/1700000000_a.log_inode42" ∈
      filesAfter
        (recoverFileFromFd (fun d n => d ++ lit "/" ++ n) 200 3 42 (lit "/tmp/a.log") 4096
          ⟨true, 0, lit "/rec", 1000⟩
          ⟨1700000000, lit "2023-11-14T22:13:20Z", true, true, true, false, 0, false, true,
            true⟩).2 [] := by
  refine ⟨by decide, by decide, by decide⟩

/-- C10, amended: in `recoverFileFromFd`, when the copy fails after the destination was
created, the next call is `os.Remove` on the destination, nothing is written to a `.meta`
path and the copy error is returned; provided that removal succeeds, the destination is
not among the files afterwards. And whenever a `.meta` sidecar is written, it is the
sidecar of the destination, written right after the copy to that destination succeeded and
the destination was synced, and the function returns no error. -/
theorem recoverFileFromFd_copy_then_meta (join : Bytes → Bytes → Bytes) (pid fd inode : Nat)
    (originalPath : Bytes) (size : Nat) (config : RecoveryConfig) (env : RecoverEnv) :
    (env.lstatOk = true → env.openOk = true → env.createOk = true → env.copyOk = false →
      (recoverFileFromFd join pid fd inode originalPath size config env).1
        = some RecoverError.copyFailed ∧
      (recoverFileFromFd join pid fd inode originalPath size config env).2
        = [FsOp.lstat (lit "/proc/" ++ decimal pid ++ lit "/fd/" ++ decimal fd) true,
           FsOp.openRead (lit "/proc/" ++ decimal pid ++ lit "/fd/" ++ decimal fd) true,
           FsOp.create (join config.RecoveryDir (recoveryFilename env.now originalPath inode))
             true,
           FsOp.copy (join config.RecoveryDir (recoveryFilename env.now originalPath inode))
             (lit "/proc/" ++ decimal pid ++ lit "/fd/" ++ decimal fd) false,
           FsOp.remove (join config.RecoveryDir (recoveryFilename env.now originalPath inode))
             env.removeOk,
           FsOp.close (join config.RecoveryDir (recoveryFilename env.now originalPath inode)),
           FsOp.close (lit "/proc/" ++ decimal pid ++ lit "/fd/" ++ decimal fd)] ∧
      (∀ p c ok, FsOp.writeFile p c ok ∉
        (recoverFileFromFd join pid fd inode originalPath size config env).2) ∧
      (env.removeOk = true → ∀ files,
        join config.RecoveryDir (recoveryFilename env.now originalPath inode) ∉
          filesAfter (recoverFileFromFd join pid fd inode originalPath size config env).2
            files)) ∧
    (∀ p c ok,
      FsOp.writeFile p c ok ∈ (recoverFileFromFd join pid fd inode originalPath size config env).2 →
      p = join config.RecoveryDir (recoveryFilename env.now originalPath inode) ++ lit ".meta" ∧
      (recoverFileFromFd join pid fd inode originalPath size config env).1 = none ∧
      ∃ src before after,
        (recoverFileFromFd join pid fd inode originalPath size config env).2 =
          before ++
          [FsOp.copy (join config.RecoveryDir (recoveryFilename env.now originalPath inode))
             src true,
           FsOp.sync (join config.RecoveryDir (recoveryFilename env.now originalPath inode))
             true,
           FsOp.writeFile p c ok] ++ after) := by
  constructor
  · intro h1 h2 h3 h4
    have hr : recoverFileFromFd join pid fd inode originalPath size config env =
        (some RecoverError.copyFailed,
          [FsOp.lstat (lit "/proc/" ++ decimal pid ++ lit "/fd/" ++ decimal fd) true,
           FsOp.openRead (lit "/proc/" ++ decimal pid ++ lit "/fd/" ++ decimal fd) true,
           FsOp.create (join config.RecoveryDir (recoveryFilename env.now originalPath inode))
             true,
           FsOp.copy (join config.RecoveryDir (recoveryFilename env.now originalPath inode))
             (lit "/proc/" ++ decimal pid ++ lit "/fd/" ++ decimal fd) false,
           FsOp.remove (join config.RecoveryDir (recoveryFilename env.now originalPath inode))
             env.removeOk,
           FsOp.close (join config.RecoveryDir (recoveryFilename env.now originalPath inode)),
           FsOp.close (lit "/proc/" ++ decimal pid ++ lit "/fd/" ++ decimal fd)]) := by
      simp [recoverFileFromFd, h1, h2, h3, h4]
    rw [hr]
    refine ⟨rfl, rfl, ?_, ?_⟩
    · intro p c ok hmem
      simp at hmem
    · intro hrm files
      dsimp only
      rw [hrm]
      exact filesAfter_copy_failed files _ _
  · intro p c ok hmem
    unfold recoverFileFromFd at hmem ⊢
    simp only [] at hmem ⊢
    split_ifs at hmem ⊢ <;> simp at hmem
    obtain ⟨rfl, rfl, rfl⟩ := hmem
    refine ⟨rfl, rfl, lit "/proc/" ++ decimal pid ++ lit "/fd/" ++ decimal fd,
      [FsOp.lstat (lit "/proc/" ++ decimal pid ++ lit "/fd/" ++ decimal fd) true,
       FsOp.openRead (lit "/proc/" ++ decimal pid ++ lit "/fd/" ++ decimal fd) true,
       FsOp.create (join config.RecoveryDir (recoveryFilename env.now originalPath inode))
         true],
      [FsOp.close (join config.RecoveryDir (recoveryFilename env.now originalPath inode)),
       FsOp.close (lit "/proc/" ++ decimal pid ++ lit "/fd/" ++ decimal fd)], ?_⟩
    rfl

/-- C10, amended, on a recovery whose copy fails and whose removal succeeds: pid 200,
fd 3, inode 42, original path `/tmp/a.log`, recovery directory `/rec`, time 1700000000. -/
theorem recoverFileFromFd_copy_then_meta_witness :
    (recoverFileFromFd (fun d n => d ++ lit "/" ++ n) 200 3 42 (lit "/tmp/a.log") 4096
        ⟨true, 0, lit "/rec", 1000⟩
        ⟨1700000000, lit "2023-11-14T22:13:20Z", true, true, true, false, 0, true, true,
          true⟩).1 = some RecoverError.copyFailed ∧
    lit "/rec/1700000000_a.log_inode42" ∉
      filesAfter
        (recoverFileFromFd (fun d n => d ++ lit "/" ++ n) 200 3 42 (lit "/tmp/a.log") 4096
          ⟨true, 0, lit "/rec", 1000⟩
          ⟨1700000000, lit "2023-11-14T22:13:20Z", true, true, true, false, 0, true, true,
            true⟩).2 [] :=
  have w := (recoverFileFromFd_copy_then_meta (fun d n => d ++ lit "/" ++ n) 200 3 42
    (lit "/tmp/a.log") 4096 ⟨true, 0, lit "/rec", 1000⟩
    ⟨1700000000, lit "2023-11-14T22:13:20Z", true, true, true, false, 0, true, true,
      true⟩).1 rfl rfl rfl rfl
  ⟨w.1, w.2.2.2 rfl []⟩

/-! ## The /proc scanner -/

/-- C11, evaluated: process 1234 holds descriptor 57 on the deleted file `/tmp/x`, and the
scanning process has only its descriptors 0, 1 and 2 open. The specification lists the
pair (1234, 57); `findOpenFds` calls `Fstat` on its own descriptor 57, which fails, and
returns nothing. When the scanner does have a descriptor of that number, the entry carries
the inode and device of the scanner's file; and a link target that merely begins with
`/tmp/x (deleted)` is accepted as well. -/
theorem findOpenFds_misses_held_fd :
    specOpenFds (lit "/tmp/x")
        [⟨lit "1234", some [⟨lit "57", some (lit "/tmp/x (deleted)")⟩]⟩] = [(1234, 57)] ∧
    findOpenFds (fun n => if n < 3 then some ⟨7, 2049⟩ else none) (lit "/tmp/x")
        [⟨lit "1234", some [⟨lit "57", some (lit "/tmp/x (deleted)")⟩]⟩] = [] ∧
    findOpenFds (fun n => if n < 3 then some ⟨7, 2049⟩ else none) (lit "/tmp/x")
        [⟨lit "1234", some [⟨lit "2", some (lit "/tmp/x (deleted)")⟩]⟩]
      = [{ Pid := 1234, Fd := 2, FilePath := lit "/tmp/x (deleted)", Inode := 7,
           Dev := 2049 }] ∧
    specOpenFds (lit "/tmp/x")
        [⟨lit "1234", some [⟨lit "2", some (lit "/tmp/x (deleted).bak")⟩]⟩] = [] ∧
    findOpenFds (fun n => if n < 3 then some ⟨7, 2049⟩ else none) (lit "/tmp/x")
        [⟨lit "1234", some [⟨lit "2", some (lit "/tmp/x (deleted).bak")⟩]⟩]
      = [{ Pid := 1234, Fd := 2, FilePath := lit "/tmp/x (deleted).bak", Inode := 7,
           Dev := 2049 }] := by
  refine ⟨by decide, by decide, by decide, by decide, by decide⟩

/-! ## Resolution of the device name -/

theorem takeWhile_append_stop (p : Nat → Bool) (a : Nat) (t : List Nat) (ha : p a = false) :
    ∀ l : List Nat, (∀ x ∈ l, p x = true) → (l ++ a :: t).takeWhile p = l := by
  intro l
  induction l with
  | nil => intro _; simp [List.takeWhile, ha]
  | cons x xs ih =>
    intro h
    have hx := h x (List.mem_cons_self _ _)
    rw [List.cons_append, List.takeWhile_cons, hx, if_pos rfl,
      ih (fun y hy => h y (List.mem_cons_of_mem _ hy))]

theorem filepathBase_dotdot (r : Bytes) (hne : r ≠ []) (hslash : 47 ∉ r) :
    filepathBase (lit "../" ++ r) = r := by
  have hrev : (lit "../" ++ r).reverse = r.reverse ++ 47 :: [46, 46] := by
    simp [lit]
  have hall : ∀ x ∈ r.reverse, (fun b : Nat => b != 47) x = true := by
    intro x hx
    have hx2 : x ∈ r := List.mem_reverse.1 hx
    have : x ≠ 47 := fun h => hslash (h ▸ hx2)
    simpa using this
  have hstrip : stripTrailingSlashes (lit "../" ++ r) = lit "../" ++ r := by
    unfold stripTrailingSlashes
    obtain ⟨x, xs, hr⟩ := List.exists_cons_of_ne_nil
      (fun h => hne (List.reverse_eq_nil_iff.1 h) : r.reverse ≠ [])
    have hx : (x != 47) = true := hall x (by rw [hr]; exact List.mem_cons_self _ _)
    have hx2 : ¬ ((x == 47) = true) := by simpa using hx
    have hdrop : (x :: (xs ++ [47, 46, 46])).dropWhile (fun b => b == 47)
        = x :: (xs ++ [47, 46, 46]) := List.dropWhile_cons_of_neg hx2
    rw [hrev, hr, List.cons_append, hdrop, ← List.cons_append, ← hr, ← hrev,
      List.reverse_reverse]
  unfold filepathBase
  rw [if_neg (by simp [lit])]
  simp only [hstrip]
  unfold lastElement
  rw [hrev, takeWhile_append_stop _ 47 [46, 46] (by decide) r.reverse hall, List.reverse_reverse,
    if_neg hne]

/-- C12, as stated, fails: the target `../../sda1` of a link below `/dev/disk/by-uuid`
begins with `../`; the name passed on is `/dev/../sda1`, while `/dev/` followed by the
basename of the target is `/dev/sda1`. -/
theorem resolvedDeviceName_not_basename :
    hasPrefix (lit "../../sda1") (lit "../") = true ∧
    resolvedDeviceName (some (lit "../../sda1")) (lit "/dev/disk/by-uuid/0a1b")
      = lit "/dev/../sda1" ∧
    lit "/dev/" ++ filepathBase (lit "../../sda1") = lit "/dev/sda1" := by
  decide

/-- C12, amended: for every symbolic-link target that begins with `../`, the device name
`handle_io` passes to the block-device table lookup is `/dev/` followed by the target
without its leading `../`; that is `/dev/` followed by the basename of the target when
nothing but a single non-empty path element follows the `../`. For a path that is not a
symbolic link the device name is left unchanged. The name so computed is the one
`getDeviceNumbers` receives whenever `handle_io` succeeds. -/
theorem resolvedDeviceName_symlink (target deviceName : Bytes) :
    (hasPrefix target (lit "../") = true →
      resolvedDeviceName (some target) deviceName = lit "/dev/" ++ target.drop 3) ∧
    (∀ r : Bytes, target = lit "../" ++ r → r ≠ [] → 47 ∉ r →
      resolvedDeviceName (some target) deviceName = lit "/dev/" ++ filepathBase target) ∧
    resolvedDeviceName none deviceName = deviceName ∧
    (∀ (env : HandleIoEnv) (cf cf1 : ConfigData) (di : Devinfo),
      handle_io env cf = some (cf1, di) →
      ∃ link, env.isSymlink cf.DeviceName = some link ∧
        cf1.DeviceName = resolvedDeviceName link cf.DeviceName ∧
        (env.getDeviceNumbers (resolvedDeviceName link cf.DeviceName)).isSome = true) := by
  have hpre : ∀ t : Bytes, hasPrefix t (lit "../") = true →
      resolvedDeviceName (some t) deviceName = lit "/dev/" ++ t.drop 3 := by
    intro t h
    unfold resolvedDeviceName trimPrefix
    simp only [h, if_true]
    rfl
  refine ⟨hpre target, ?_, rfl, ?_⟩
  · intro r ht hne hslash
    subst ht
    rw [hpre _ (by simp [hasPrefix, lit]), filepathBase_dotdot r hne hslash]
    simp [lit]
  · intro env cf cf1 di h
    unfold handle_io at h
    cases hm : env.findMountPoint cf.DeviceName with
    | none => rw [hm] at h; simp at h
    | some mp =>
      rw [hm] at h
      simp only [] at h
      cases hl : env.isSymlink cf.DeviceName with
      | none => rw [hl] at h; simp at h
      | some link =>
        rw [hl] at h
        simp only [] at h
        cases hn : env.getDeviceNumbers (resolvedDeviceName link cf.DeviceName) with
        | none => rw [hn] at h; simp at h
        | some mm =>
          obtain ⟨major, minor⟩ := mm
          rw [hn] at h
          simp only [Option.some.injEq, Prod.mk.injEq] at h
          exact ⟨link, rfl, by rw [← h.1], by rw [hn]; rfl⟩

/-- C12, amended, at the LVM link `/dev/mapper/vg-root`, whose target is `../dm-2`. -/
theorem resolvedDeviceName_symlink_witness :
    hasPrefix (lit "../dm-2") (lit "../") = true ∧
    resolvedDeviceName (some (lit "../dm-2")) (lit "/dev/mapper/vg-root") = lit "/dev/dm-2" ∧
    resolvedDeviceName (some (lit "../dm-2")) (lit "/dev/mapper/vg-root")
      = lit "/dev/" ++ filepathBase (lit "../dm-2") :=
  ⟨by decide,
   ((resolvedDeviceName_symlink (lit "../dm-2") (lit "/dev/mapper/vg-root")).1
      (by decide)).trans (by decide),
   (resolvedDeviceName_symlink (lit "../dm-2") (lit "/dev/mapper/vg-root")).2.1
      (lit "dm-2") (by decide) (by decide) (by decide)⟩

/-! ## The retention sweep -/

theorem timeSub_gt_iff (t u maxAge : Int) (hlo : -(2 ^ 63) ≤ maxAge) (hhi : maxAge < 2 ^ 63 - 1) :
    timeSub t u > maxAge ↔ t - u > maxAge := by
  unfold timeSub
  split_ifs <;> constructor <;> intro h <;> omega

theorem cleanupLoop_remaining (join : Bytes → Bytes → Bytes) (dir : Bytes) (now : Int)
    (removeOk : Bytes → Bool) :
    ∀ entries : List DirEntry,
      (∀ e ∈ entries, e.IsDir = false → now - e.ModTime > 7 * 24 * hour →
        removeOk (join dir e.Name) = true) →
      (cleanupLoop join dir now removeOk (7 * 24 * hour) entries).remaining =
        entries.filter (fun e => e.IsDir || decide (now - e.ModTime ≤ 7 * 24 * hour)) ∧
      (cleanupLoop join dir now removeOk (7 * 24 * hour) entries).failed = false := by
  intro entries
  induction entries with
  | nil => intro _; exact ⟨rfl, rfl⟩
  | cons e rest ih =>
    intro h
    obtain ⟨ih1, ih2⟩ := ih (fun x hx => h x (List.mem_cons_of_mem _ hx))
    have he := h e (List.mem_cons_self _ _)
    have hiff := timeSub_gt_iff now e.ModTime (7 * 24 * hour) (by decide) (by decide)
    unfold cleanupLoop
    simp only []
    by_cases hd : e.IsDir = true
    · rw [if_pos hd]
      refine ⟨?_, ih2⟩
      show e :: _ = _
      rw [List.filter_cons_of_pos (by rw [hd]; rfl), ih1]
    · have hd2 : e.IsDir = false := by simpa using hd
      rw [if_neg hd]
      by_cases hold : now - e.ModTime > 7 * 24 * hour
      · rw [if_pos (hiff.2 hold), if_pos (he hd2 hold)]
        refine ⟨?_, ih2⟩
        have hp : ¬ ((e.IsDir || decide (now - e.ModTime ≤ 7 * 24 * hour)) = true) := by
          rw [hd2, Bool.false_or, decide_eq_true_eq]
          omega
        have key : List.filter
            (fun e => e.IsDir || decide (now - e.ModTime ≤ 7 * 24 * hour)) (e :: rest)
            = List.filter (fun e => e.IsDir || decide (now - e.ModTime ≤ 7 * 24 * hour)) rest :=
          List.filter_cons_of_neg hp
        show (cleanupLoop join dir now removeOk (7 * 24 * hour) rest).remaining = _
        rw [key, ih1]
      · rw [if_neg (fun hc => hold (hiff.1 hc))]
        refine ⟨?_, ih2⟩
        have hp : (e.IsDir || decide (now - e.ModTime ≤ 7 * 24 * hour)) = true := by
          rw [hd2, Bool.false_or, decide_eq_true_eq]
          omega
        have key : List.filter
            (fun e => e.IsDir || decide (now - e.ModTime ≤ 7 * 24 * hour)) (e :: rest)
            = e :: List.filter
              (fun e => e.IsDir || decide (now - e.ModTime ≤ 7 * 24 * hour)) rest :=
          List.filter_cons_of_pos hp
        show e :: _ = _
        rw [key, ih1]

/-- C13: for every listing of the recovery directory and every current time, when the
removals the sweep attempts succeed, the entries left after one sweep of
`RecoveryManagerDaemon` (maximum age seven days) are exactly the subdirectories and the
files whose modification time is at most seven days before the current time; the sweep
returns no error. -/
theorem RecoveryManagerDaemon_remaining (join : Bytes → Bytes → Bytes)
    (config : RecoveryConfig) (entries : List DirEntry) (now : Int) (removeOk : Bytes → Bool)
    (hrm : ∀ e ∈ entries, e.IsDir = false → now - e.ModTime > 7 * 24 * hour →
      removeOk (join config.RecoveryDir e.Name) = true) :
    (RecoveryManagerDaemon join config (some entries) now removeOk).remaining =
      entries.filter (fun e => e.IsDir || decide (now - e.ModTime ≤ 7 * 24 * hour)) ∧
    (RecoveryManagerDaemon join config (some entries) now removeOk).failed = false := by
  unfold RecoveryManagerDaemon cleanupOldRecoveries
  exact cleanupLoop_remaining join config.RecoveryDir now removeOk entries hrm

/-- C13 at the sixth end-to-end scenario: a file modified eight days ago and a file
modified three days ago; after one sweep only the second is left. -/
theorem RecoveryManagerDaemon_remaining_witness :
    (RecoveryManagerDaemon (fun d n => d ++ lit "/" ++ n) ⟨true, 0, lit "/rec", 1000⟩
      (some [⟨lit "old", false, 100 * 24 * hour - 8 * 24 * hour⟩,
             ⟨lit "new", false, 100 * 24 * hour - 3 * 24 * hour⟩])
      (100 * 24 * hour) (fun _ => true)).remaining
      = [⟨lit "new", false, 100 * 24 * hour - 3 * 24 * hour⟩] :=
  (RecoveryManagerDaemon_remaining (fun d n => d ++ lit "/" ++ n) ⟨true, 0, lit "/rec", 1000⟩
    [⟨lit "old", false, 100 * 24 * hour - 8 * 24 * hour⟩,
     ⟨lit "new", false, 100 * 24 * hour - 3 * 24 * hour⟩]
    (100 * 24 * hour) (fun _ => true) (fun _ _ _ _ => rfl)).1.trans (by decide)

/-! ## Zero-terminated strings -/

theorem nullTerminatedString_cons_zero (rest : Bytes) :
    nullTerminatedString (0 :: rest) = [] := by
  simp [nullTerminatedString, indexByte]

theorem nullTerminatedString_cons_ne (x : Nat) (rest : Bytes) (hx : x ≠ 0) :
    nullTerminatedString (x :: rest) = x :: nullTerminatedString rest := by
  have hx2 : ¬ (0 = x) := fun h => hx h.symm
  unfold nullTerminatedString indexByte
  by_cases hmem : 0 ∈ rest
  · have h1 : (0 : Nat) ∈ x :: rest := List.mem_cons_of_mem _ hmem
    have hidx : List.indexOf 0 (x :: rest) = List.indexOf 0 rest + 1 := by
      rw [List.indexOf_cons_ne _ hx]
    simp only [if_pos h1, if_pos hmem, hidx]
    have e1 : ¬ (((List.indexOf 0 rest + 1 : Nat) : Int) = -1) := by omega
    have e2 : ¬ (((List.indexOf 0 rest : Nat) : Int) = -1) := by omega
    rw [if_neg e1, if_neg e2]
    simp
  · have h1 : (0 : Nat) ∉ x :: rest := by
      intro h
      rcases List.mem_cons.1 h with h | h
      · exact hx2 h
      · exact hmem h
    simp only [if_neg h1, if_neg hmem]
    simp

/-- C14: for every byte buffer `b`, `nullTerminatedString b` contains no zero byte, is a
prefix of `b`, is followed in `b` by a zero byte when it is shorter than `b`, and is the
whole of `b` when `b` contains no zero byte. -/
theorem nullTerminatedString_leading_segment (b : Bytes) :
    0 ∉ nullTerminatedString b ∧
    nullTerminatedString b <+: b ∧
    ((nullTerminatedString b).length < b.length →
      b[(nullTerminatedString b).length]? = some 0) ∧
    (0 ∉ b → nullTerminatedString b = b) := by
  induction b with
  | nil => simp [nullTerminatedString, indexByte]
  | cons x rest ih =>
    obtain ⟨i1, i2, i3, i4⟩ := ih
    by_cases hx : x = 0
    · subst hx
      rw [nullTerminatedString_cons_zero]
      simp
    · rw [nullTerminatedString_cons_ne x rest hx]
      refine ⟨?_, ?_, ?_, ?_⟩
      · intro h
        rcases List.mem_cons.1 h with h | h
        · exact hx h.symm
        · exact i1 h
      · exact (List.prefix_cons_inj x).2 i2
      · intro hlen
        simp only [List.length_cons, Nat.add_lt_add_iff_right] at hlen
        simpa using i3 hlen
      · intro hno
        rw [i4 (fun h => hno (List.mem_cons_of_mem _ h))]

/-- C14 on the buffer `ab\0cd\0`: the result is `ab`, and the byte after it is zero. -/
theorem nullTerminatedString_leading_segment_witness :
    nullTerminatedString [97, 98, 0, 99, 100, 0] = [97, 98] ∧
    (nullTerminatedString [97, 98, 0, 99, 100, 0]).length < [97, 98, 0, 99, 100, 0].length ∧
    [97, 98, 0, 99, 100, 0][(nullTerminatedString [97, 98, 0, 99, 100, 0]).length]? = some 0 :=
  ⟨by decide, by decide,
   (nullTerminatedString_leading_segment [97, 98, 0, 99, 100, 0]).2.2.1 (by decide)⟩

/-! ## Balance of the recovery counters -/

theorem handleRecoveryEvent_counts (join : Bytes → Bytes → Bytes) (config : RecoveryConfig)
    (env : RecoverEnv) (event : RecoveryEvent) (st : HandlerState) :
    (handleRecoveryEvent join config env event st).stats.FilesDeleted
      = (st.stats.FilesDeleted + 1) % 2 ^ 64 ∧
    (((handleRecoveryEvent join config env event st).stats.FilesRecovered
        = (st.stats.FilesRecovered + 1) % 2 ^ 64 ∧
      (handleRecoveryEvent join config env event st).stats.RecoveryFailed
        = st.stats.RecoveryFailed) ∨
     ((handleRecoveryEvent join config env event st).stats.FilesRecovered
        = st.stats.FilesRecovered ∧
      (handleRecoveryEvent join config env event st).stats.RecoveryFailed
        = (st.stats.RecoveryFailed + 1) % 2 ^ 64)) := by
  unfold handleRecoveryEvent
  simp only []
  split_ifs with h
  · dsimp only
    split
    · exact ⟨rfl, Or.inr ⟨rfl, rfl⟩⟩
    · exact ⟨rfl, Or.inl ⟨rfl, rfl⟩⟩
  · exact ⟨rfl, Or.inr ⟨rfl, rfl⟩⟩

theorem handleRecoveryEvent_inv (join : Bytes → Bytes → Bytes) (config : RecoveryConfig)
    (env : RecoverEnv) (event : RecoveryEvent) (st : HandlerState) (n : Nat)
    (h : ∃ r f : Nat, r + f ≤ n ∧ st.stats.FilesRecovered = r % 2 ^ 64 ∧
      st.stats.RecoveryFailed = f % 2 ^ 64 ∧ st.stats.FilesDeleted = (r + f) % 2 ^ 64) :
    ∃ r f : Nat, r + f ≤ n + 1 ∧
      (handleRecoveryEvent join config env event st).stats.FilesRecovered = r % 2 ^ 64 ∧
      (handleRecoveryEvent join config env event st).stats.RecoveryFailed = f % 2 ^ 64 ∧
      (handleRecoveryEvent join config env event st).stats.FilesDeleted = (r + f) % 2 ^ 64 := by
  obtain ⟨r, f, hle, hr, hf, hd⟩ := h
  obtain ⟨c1, c2⟩ := handleRecoveryEvent_counts join config env event st
  rcases c2 with ⟨c2, c3⟩ | ⟨c2, c3⟩
  · refine ⟨r + 1, f, by omega, ?_, ?_, ?_⟩
    · rw [c2, hr]; omega
    · rw [c3, hf]
    · rw [c1, hd]; omega
  · refine ⟨r, f + 1, by omega, ?_, ?_, ?_⟩
    · rw [c2, hr]
    · rw [c3, hf]; omega
    · rw [c1, hd]; omega

theorem handleRecoveryEvents_inv (join : Bytes → Bytes → Bytes) (config : RecoveryConfig) :
    ∀ (inputs : List (PerfRead × RecoverEnv)) (st : HandlerState) (n : Nat),
      (∃ r f : Nat, r + f ≤ n ∧ st.stats.FilesRecovered = r % 2 ^ 64 ∧
        st.stats.RecoveryFailed = f % 2 ^ 64 ∧ st.stats.FilesDeleted = (r + f) % 2 ^ 64) →
      ∃ r f : Nat, r + f ≤ n + inputs.length ∧
        (handleRecoveryEvents join config inputs st).stats.FilesRecovered = r % 2 ^ 64 ∧
        (handleRecoveryEvents join config inputs st).stats.RecoveryFailed = f % 2 ^ 64 ∧
        (handleRecoveryEvents join config inputs st).stats.FilesDeleted
          = (r + f) % 2 ^ 64 := by
  intro inputs
  induction inputs with
  | nil =>
    intro st n h
    simpa [handleRecoveryEvents] using h
  | cons x rest ih =>
    intro st n h
    have hweak : ∃ r f : Nat, r + f ≤ n + 1 ∧ st.stats.FilesRecovered = r % 2 ^ 64 ∧
        st.stats.RecoveryFailed = f % 2 ^ 64 ∧ st.stats.FilesDeleted = (r + f) % 2 ^ 64 := by
      obtain ⟨r, f, hle, rest1⟩ := h
      exact ⟨r, f, by omega, rest1⟩
    have hlen : n + (x :: rest).length = n + 1 + rest.length := by
      simp only [List.length_cons]; omega
    rw [hlen]
    obtain ⟨read, env⟩ := x
    cases read with
    | closed =>
      simp only [handleRecoveryEvents]
      obtain ⟨r, f, hle, rest1⟩ := h
      exact ⟨r, f, by omega, rest1⟩
    | readError =>
      simp only [handleRecoveryEvents]
      exact ih st (n + 1) hweak
    | record lost raw =>
      by_cases hl : lost ≠ 0
      · simp only [handleRecoveryEvents, if_pos hl]
        exact ih st (n + 1) hweak
      · cases hdec : decodeRecoveryEvent raw with
        | none =>
          simp only [handleRecoveryEvents, if_neg hl, hdec]
          exact ih st (n + 1) hweak
        | some event =>
          simp only [handleRecoveryEvents, if_neg hl, hdec]
          exact ih _ (n + 1) (handleRecoveryEvent_inv join config env event st n h)

/-- In 64-bit arithmetic the balance holds after any run, whatever its length. -/
theorem handleRecoveryEvents_balance_mod (join : Bytes → Bytes → Bytes)
    (config : RecoveryConfig) (inputs : List (PerfRead × RecoverEnv)) :
    (handleRecoveryEvents join config inputs ⟨⟨0, 0, 0, 0, 0⟩, [], []⟩).stats.FilesDeleted =
      ((handleRecoveryEvents join config inputs ⟨⟨0, 0, 0, 0, 0⟩, [], []⟩).stats.FilesRecovered +
       (handleRecoveryEvents join config inputs ⟨⟨0, 0, 0, 0, 0⟩, [], []⟩).stats.RecoveryFailed)
        % 2 ^ 64 := by
  obtain ⟨r, f, _, hr, hf, hd⟩ := handleRecoveryEvents_inv join config inputs
    ⟨⟨0, 0, 0, 0, 0⟩, [], []⟩ 0 ⟨0, 0, by omega, rfl, rfl, rfl⟩
  rw [hr, hf, hd]
  omega

/-- C15: starting from all-zero stats, after `handleRecoveryEvents` has processed any
sequence of fewer than `2 ^ 64` results of `reader.Read()` (so that no counter has
wrapped), whatever each recovery attempt returned, the deleted counter is the sum of the
recovered and the failed counter; a lost-sample notification, an undecodable record and a
read error leave the whole state, and so every counter, unchanged. -/
theorem handleRecoveryEvents_balance (join : Bytes → Bytes → Bytes) (config : RecoveryConfig)
    (inputs : List (PerfRead × RecoverEnv)) (hlen : inputs.length < 2 ^ 64) :
    (handleRecoveryEvents join config inputs ⟨⟨0, 0, 0, 0, 0⟩, [], []⟩).stats.FilesDeleted =
      (handleRecoveryEvents join config inputs ⟨⟨0, 0, 0, 0, 0⟩, [], []⟩).stats.FilesRecovered +
      (handleRecoveryEvents join config inputs ⟨⟨0, 0, 0, 0, 0⟩, [], []⟩).stats.RecoveryFailed ∧
    (∀ (st : HandlerState) (env : RecoverEnv) (lost : Nat) (raw : Bytes),
      lost ≠ 0 ∨ decodeRecoveryEvent raw = none →
      handleRecoveryEvents join config [(PerfRead.record lost raw, env)] st = st) ∧
    (∀ (st : HandlerState) (env : RecoverEnv),
      handleRecoveryEvents join config [(PerfRead.readError, env)] st = st) := by
  refine ⟨?_, ?_, ?_⟩
  · obtain ⟨r, f, hle, hr, hf, hd⟩ := handleRecoveryEvents_inv join config inputs
      ⟨⟨0, 0, 0, 0, 0⟩, [], []⟩ 0 ⟨0, 0, by omega, rfl, rfl, rfl⟩
    rw [hr, hf, hd]
    omega
  · intro st env lost raw h
    rcases h with h | h
    · simp [handleRecoveryEvents, h]
    · simp [handleRecoveryEvents, h]
  · intro st env
    simp [handleRecoveryEvents]

/-- C15 on a run of four reads: a record without holder, a lost-sample notification, a
record whose holder descriptor has gone, and a record that is recovered: three deletions,
one recovery, two failures. -/
theorem handleRecoveryEvents_balance_witness :
    (handleRecoveryEvents (fun d n => d ++ lit "/" ++ n) ⟨true, 0, lit "/rec", 1000⟩
      [(PerfRead.record 0 (List.replicate 304 0),
         ⟨0, [], false, false, false, false, 0, false, false, false⟩),
       (PerfRead.record 5 [],
         ⟨0, [], false, false, false, false, 0, false, false, false⟩),
       (PerfRead.record 0 ([1, 0, 0, 0, 200, 0, 0, 0, 3, 0, 0, 0] ++ List.replicate 292 0),
         ⟨0, [], false, false, false, false, 0, false, false, false⟩),
       (PerfRead.record 0 ([1, 0, 0, 0, 200, 0, 0, 0, 3, 0, 0, 0] ++ List.replicate 292 0),
         ⟨1700000000, [], true, true, true, true, 0, true, true, true⟩)]
      ⟨⟨0, 0, 0, 0, 0⟩, [], []⟩).stats = ⟨0, 3, 1, 2, 0⟩ ∧
    (handleRecoveryEvents (fun d n => d ++ lit "/" ++ n) ⟨true, 0, lit "/rec", 1000⟩
      [(PerfRead.record 0 (List.replicate 304 0),
         ⟨0, [], false, false, false, false, 0, false, false, false⟩),
       (PerfRead.record 5 [],
         ⟨0, [], false, false, false, false, 0, false, false, false⟩),
       (PerfRead.record 0 ([1, 0, 0, 0, 200, 0, 0, 0, 3, 0, 0, 0] ++ List.replicate 292 0),
         ⟨0, [], false, false, false, false, 0, false, false, false⟩),
       (PerfRead.record 0 ([1, 0, 0, 0, 200, 0, 0, 0, 3, 0, 0, 0] ++ List.replicate 292 0),
         ⟨1700000000, [], true, true, true, true, 0, true, true, true⟩)]
      ⟨⟨0, 0, 0, 0, 0⟩, [], []⟩).stats.FilesDeleted =
    (handleRecoveryEvents (fun d n => d ++ lit "/" ++ n) ⟨true, 0, lit "/rec", 1000⟩
      [(PerfRead.record 0 (List.replicate 304 0),
         ⟨0, [], false, false, false, false, 0, false, false, false⟩),
       (PerfRead.record 5 [],
         ⟨0, [], false, false, false, false, 0, false, false, false⟩),
       (PerfRead.record 0 ([1, 0, 0, 0, 200, 0, 0, 0, 3, 0, 0, 0] ++ List.replicate 292 0),
         ⟨0, [], false, false, false, false, 0, false, false, false⟩),
       (PerfRead.record 0 ([1, 0, 0, 0, 200, 0, 0, 0, 3, 0, 0, 0] ++ List.replicate 292 0),
         ⟨1700000000, [], true, true, true, true, 0, true, true, true⟩)]
      ⟨⟨0, 0, 0, 0, 0⟩, [], []⟩).stats.FilesRecovered +
    (handleRecoveryEvents (fun d n => d ++ lit "/" ++ n) ⟨true, 0, lit "/rec", 1000⟩
      [(PerfRead.record 0 (List.replicate 304 0),
         ⟨0, [], false, false, false, false, 0, false, false, false⟩),
       (PerfRead.record 5 [],
         ⟨0, [], false, false, false, false, 0, false, false, false⟩),
       (PerfRead.record 0 ([1, 0, 0, 0, 200, 0, 0, 0, 3, 0, 0, 0] ++ List.replicate 292 0),
         ⟨0, [], false, false, false, false, 0, false, false, false⟩),
       (PerfRead.record 0 ([1, 0, 0, 0, 200, 0, 0, 0, 3, 0, 0, 0] ++ List.replicate 292 0),
         ⟨1700000000, [], true, true, true, true, 0, true, true, true⟩)]
      ⟨⟨0, 0, 0, 0, 0⟩, [], []⟩).stats.RecoveryFailed :=
  ⟨by set_option maxRecDepth 100000 in decide,
   (handleRecoveryEvents_balance _ _ _ (by decide)).1⟩

/-! ## Spawning the action -/

/-- C16, evaluated: for the empty action (a configuration without an `action` key) and
for an action of white space only, splitting yields no token, and `parts[0]` in
`runInBackground` is an index out of range: the first breach with a repeat limit of at
least one ends the program with a panic. -/
theorem runInBackground_blank_action_panics :
    fields [] = [] ∧
    runInBackground [] true true = RunResult.panicked ∧
    fields " \t ".toList = [] ∧
    runInBackground " \t ".toList true true = RunResult.panicked ∧
    checkDiskUSage (fun _ => 0)
      { DeviceName := lit "/dev/sda1", DiskUsageThreshold := 50, Action := [],
        RepeatAction := 1, RecoveryEnabled := false, RecoveryMinSize := 0,
        RecoveryDir := [], RecoveryMaxFiles := 0 }
      { statfs := some ⟨1000000, 400000, 400000⟩, createOk := true, startOk := true } 0
      = (0, Outcome.panicked) := by
  refine ⟨by decide, by decide, by decide, by decide, ?_⟩
  set_option maxRecDepth 10000 in decide

/-- For an action with at least one token the first token is the executable and the
remaining tokens are its arguments. -/
theorem runInBackground_tokens (action : List Char) (exe : List Char)
    (args : List (List Char)) (h : fields action = exe :: args) :
    runInBackground action true true = RunResult.started exe args := by
  unfold runInBackground
  rw [h]
  rfl

/-! ## A failing statfs -/

/-- C17: when `syscall.Statfs` fails, `DiskUsage` returns the all-zero status, and for
every threshold percentage and every prior counter value `checkDiskUSage` takes the
branch of a threshold that is not breached: nothing is spawned and the counter is reset to
zero. -/
theorem checkDiskUSage_statfs_error (oor : Nat → Nat) (cf : ConfigData) (env : WatchEnv)
    (counter : Nat) (hfail : env.statfs = none) :
    DiskUsage oor env.statfs cf.DiskUsageThreshold = ⟨0, 0, 0, 0, 0⟩ ∧
    checkDiskUSage oor cf env counter = (0, Outcome.reset) ∧
    (watchRun oor cf [env] counter 0).2 = 0 := by
  have hd : DiskUsage oor env.statfs cf.DiskUsageThreshold = ⟨0, 0, 0, 0, 0⟩ := by
    rw [hfail]; rfl
  have hc : checkDiskUSage oor cf env counter = (0, Outcome.reset) := by
    apply checkDiskUSage_below
    unfold aboveThreshold
    rw [hd]
    rfl
  refine ⟨hd, hc, ?_⟩
  simp [watchRun, hc]

/-- C17 with a threshold of 0 percent, a counter of 2 and a repeat limit of 5. -/
theorem checkDiskUSage_statfs_error_witness :
    checkDiskUSage (fun _ => 0)
      { DeviceName := lit "/dev/sda1", DiskUsageThreshold := 0, Action := "/bin/true".toList,
        RepeatAction := 5, RecoveryEnabled := false, RecoveryMinSize := 0,
        RecoveryDir := [], RecoveryMaxFiles := 0 }
      { statfs := none, createOk := true, startOk := true } 2 = (0, Outcome.reset) :=
  (checkDiskUSage_statfs_error (fun _ => 0) _ _ 2 rfl).2.1

end DiskAlert
